import Mathlib

set_option maxRecDepth 8000
set_option maxHeartbeats 1000000

/-!
Verification development for the sigil-lang migration-script corpus.

Buffers are modelled as `List Char`.  Python string operations are embedded
as executable Lean functions on character lists; index-based scanning loops
from the scripts become recursion over the remaining suffix of the buffer
(carrying the absolute position and, where the source inspects `code[i-1]`,
the previously scanned character), or fuel-based recursion where the source
loop can jump forward by computed amounts.  Fuel-0 fallbacks return the
input unchanged (for rewriters) or a failure value (for scanners); all
concrete statements use ample fuel.  File I/O, CLI handling and statistics
counters of the scripts are outside the embedded core; the filesystem query
`tests_path.exists()` is abstracted as a boolean input.
-/

namespace Sigil

/-- Single-quote character, written numerically. -/
def sq : Char := Char.ofNat 39

/-- Backtick character, written numerically. -/
def bq : Char := Char.ofNat 96

/-- Python `str.isspace` for the ASCII whitespace used by `strip`/`split`. -/
def pyIsSpace (c : Char) : Bool :=
  c = ' ' || c = '\t' || c = '\n' || c = '\r' || c = Char.ofNat 11 || c = Char.ofNat 12

/-- Python `str.lstrip()`. -/
def pyLstrip (l : List Char) : List Char := l.dropWhile pyIsSpace

/-- Python `str.rstrip()`. -/
def pyRstrip (l : List Char) : List Char := (l.reverse.dropWhile pyIsSpace).reverse

/-- Python `str.strip()`. -/
def pyStrip (l : List Char) : List Char := pyLstrip (pyRstrip l)

/-- Python `str.split(c)` for a single separator character. -/
def splitOn1 (sep : Char) : List Char → List (List Char)
  | [] => [[]]
  | c :: t =>
    if c = sep then [] :: splitOn1 sep t
    else
      match splitOn1 sep t with
      | [] => [[c]]
      | h :: r => (c :: h) :: r

/-- Python `str.split("\n")`. -/
def splitNl (l : List Char) : List (List Char) := splitOn1 '\n' l

/-- Python `"\n".join(lines)`. -/
def joinNl (ls : List (List Char)) : List Char := List.intercalate ['\n'] ls

/-- Whether `pat` occurs as a contiguous substring of `l` (Python `pat in l`). -/
def occursSub (pat : List Char) : List Char → Bool
  | [] => pat.isEmpty
  | c :: t => pat.isPrefixOf (c :: t) || occursSub pat t

/-- Index of the first occurrence of `pat` in `l` (Python `l.find(pat)`). -/
def findSub (pat : List Char) : List Char → Option Nat
  | [] => if pat.isEmpty then some 0 else none
  | c :: t =>
    if pat.isPrefixOf (c :: t) then some 0
    else (findSub pat t).map (· + 1)

namespace Migrate

/-!
Embedding of `scripts/migrate_block_syntax.py` (class `BlockSyntaxMigrator`).
The `stats` counters and the `path` argument (used only for reporting) are
dropped; every text-transforming code path is kept.
-/

/-- Inner loop of `_find_balanced_close`: scans the suffix `l` whose head sits
at absolute position `i`, with bracket-family depth `depth` and the current
string-literal context (`none`, `"`, or backtick). -/
def fbcGo : List Char → Nat → Int → Option Char → Option Nat
  | [], _, _, _ => none
  | ch :: t, i, depth, st =>
    match st with
    | some q =>
      if ch = '\\' then
        match t with
        | _ :: t2 => fbcGo t2 (i + 2) depth (some q)
        | [] => none
      else if ch = q then fbcGo t (i + 1) depth none
      else fbcGo t (i + 1) depth (some q)
    | none =>
      if ch = '"' ∨ ch = bq then fbcGo t (i + 1) depth (some ch)
      else if ch = '(' ∨ ch = '[' ∨ ch = '{' then fbcGo t (i + 1) (depth + 1) none
      else if ch = ')' ∨ ch = ']' ∨ ch = '}' then
        if depth - 1 = 0 then some i else fbcGo t (i + 1) (depth - 1) none
      else fbcGo t (i + 1) depth none

/-- `BlockSyntaxMigrator._find_balanced_close(text, start)`: find the matching
close for the open delimiter at `start`, counting all of `()[]{}` as one
family and skipping `"`- and backtick-delimited string literals. -/
def _find_balanced_close (text : List Char) (start : Nat) : Option Nat :=
  fbcGo (text.drop start) start 0 none

/-- `BlockSyntaxMigrator._extract_balanced(text, open_pos)`:
`(inner_content, close_pos)` on success. -/
def _extract_balanced (text : List Char) (openPos : Nat) :
    Option (List Char × Nat) :=
  match _find_balanced_close text openPos with
  | none => none
  | some close => some ((text.take close).drop (openPos + 1), close)

/-- Suffix-oriented form of `_extract_balanced` used by the scanning loops:
given the suffix starting at the open delimiter, return the inner content,
the closing character and the suffix after the closing character. -/
def extractBalancedSfx (sfx : List Char) : Option (List Char × Char × List Char) :=
  match _find_balanced_close sfx 0 with
  | none => none
  | some close =>
    match sfx.get? close with
    | none => none
    | some c => some ((sfx.take close).drop 1, c, sfx.drop (close + 1))

/-- Per-line body of `_remove_trailing_commas_from_block`: `pyRstrip line` is
Python's `stripped`, `line.drop (pyRstrip line).length` the preserved trailing
whitespace. -/
def rtcLine (line : List Char) : List Char :=
  if (pyRstrip line).getLast? = some ',' then
    if (pyRstrip line).count '(' + (pyRstrip line).count '[' +
          (pyRstrip line).count '{' ≤
        (pyRstrip line).count ')' + (pyRstrip line).count ']' +
          (pyRstrip line).count '}' then
      (pyRstrip line).dropLast ++ line.drop (pyRstrip line).length
    else pyRstrip line ++ line.drop (pyRstrip line).length
  else pyRstrip line ++ line.drop (pyRstrip line).length

/-- `BlockSyntaxMigrator._remove_trailing_commas_from_block`. -/
def _remove_trailing_commas_from_block (blockContent : List Char) : List Char :=
  joinNl ((splitNl blockContent).map rtcLine)

/-- Inner loop of `_split_first_arg`: `text` is the whole argument text,
`l` the unscanned suffix at absolute position `i`. -/
def sfaGo (text : List Char) : List Char → Nat → Int → Option Char →
    Option (List Char × List Char)
  | [], _, _, _ => none
  | ch :: t, i, depth, st =>
    match st with
    | some q =>
      if ch = '\\' then
        match t with
        | _ :: t2 => sfaGo text t2 (i + 2) depth (some q)
        | [] => none
      else if ch = q then sfaGo text t (i + 1) depth none
      else sfaGo text t (i + 1) depth (some q)
    | none =>
      if ch = '"' ∨ ch = bq then sfaGo text t (i + 1) depth (some ch)
      else
        let depth' :=
          if ch = '(' ∨ ch = '[' ∨ ch = '{' then depth + 1
          else if ch = ')' ∨ ch = ']' ∨ ch = '}' then depth - 1
          else depth
        if ch = ',' ∧ depth' = 0 then some (text.take i, text.drop (i + 1))
        else sfaGo text t (i + 1) depth' none

/-- `BlockSyntaxMigrator._split_first_arg(text)`: split at the first
top-level comma, respecting nesting and string literals. -/
def _split_first_arg (text : List Char) : Option (List Char × List Char) :=
  sfaGo text text 0 0 none

/-- `i == 0 or not code[i-1].isalnum()` as a test on the previous character. -/
def prevNotAlnum : Option Char → Bool
  | none => true
  | some c => !c.isAlphanum

/-- `i == 0 or code[i-1] not in ('.', '_')` as a test on the previous character. -/
def prevNotDotUnderscore : Option Char → Bool
  | none => true
  | some c => !(c = '.' || c = '_')

/-- Scan loop of `_convert_run`: `mig` is the recursive full pipeline applied
to inner contents, `prev` the character before the current position. -/
def _convert_run_go (mig : List Char → List Char) : Nat → Option Char → List Char →
    List Char
  | 0, _, l => l
  | f + 1, prev, l =>
    if ("run(".toList).isPrefixOf l && prevNotAlnum prev then
      if prev = some '.' then
        match l with
        | [] => []
        | c :: t => c :: _convert_run_go mig f (some c) t
      else
        match extractBalancedSfx (l.drop 3) with
        | some (inner, cl, after) =>
          '{' :: (_remove_trailing_commas_from_block (mig inner) ++
            '}' :: _convert_run_go mig f (some cl) after)
        | none =>
          match l with
          | [] => []
          | c :: t => c :: _convert_run_go mig f (some c) t
    else
      match l with
      | [] => []
      | c :: t => c :: _convert_run_go mig f (some c) t

/-- Scan loop of `_convert_try`. -/
def _convert_try_go (mig : List Char → List Char) : Nat → Option Char → List Char →
    List Char
  | 0, _, l => l
  | f + 1, prev, l =>
    if ("try(".toList).isPrefixOf l && prevNotAlnum prev then
      match extractBalancedSfx (l.drop 3) with
      | some (inner, cl, after) =>
        ("try \x7b".toList) ++ _remove_trailing_commas_from_block (mig inner) ++
          '}' :: _convert_try_go mig f (some cl) after
      | none =>
        match l with
        | [] => []
        | c :: t => c :: _convert_try_go mig f (some c) t
    else
      match l with
      | [] => []
      | c :: t => c :: _convert_try_go mig f (some c) t

/-- Scan loop of `_convert_loop_single`. -/
def _convert_loop_single_go (mig : List Char → List Char) :
    Nat → Option Char → List Char → List Char
  | 0, _, l => l
  | f + 1, prev, l =>
    if ("loop(".toList).isPrefixOf l && prevNotAlnum prev then
      match extractBalancedSfx (l.drop 4) with
      | some (inner, cl, after) =>
        ("loop \x7b".toList) ++ _remove_trailing_commas_from_block (mig inner) ++
          '}' :: _convert_loop_single_go mig f (some cl) after
      | none =>
        match l with
        | [] => []
        | c :: t => c :: _convert_loop_single_go mig f (some c) t
    else
      match l with
      | [] => []
      | c :: t => c :: _convert_loop_single_go mig f (some c) t

/-- Scan loop of `_convert_loop_run`: `loop(run(...))` to `loop { ... }`. -/
def _convert_loop_run_go (mig : List Char → List Char) :
    Nat → Option Char → List Char → List Char
  | 0, _, l => l
  | f + 1, prev, l =>
    if ("loop(".toList).isPrefixOf l && prevNotAlnum prev then
      match extractBalancedSfx (l.drop 4) with
      | some (inner, cl, after) =>
        let innerStripped := pyStrip inner
        if ("run(".toList).isPrefixOf innerStripped &&
            innerStripped.getLast? = some ')' then
          match extractBalancedSfx (innerStripped.drop 3) with
          | some (runContent, _, _) =>
            ("loop \x7b".toList) ++
              _remove_trailing_commas_from_block (mig runContent) ++
              '}' :: _convert_loop_run_go mig f (some cl) after
          | none =>
            match l with
            | [] => []
            | c :: t => c :: _convert_loop_run_go mig f (some c) t
        else
          match l with
          | [] => []
          | c :: t => c :: _convert_loop_run_go mig f (some c) t
      | none =>
        match l with
        | [] => []
        | c :: t => c :: _convert_loop_run_go mig f (some c) t
    else
      match l with
      | [] => []
      | c :: t => c :: _convert_loop_run_go mig f (some c) t

/-- Scan loop of `_convert_unsafe_run`: `unsafe(run(...))` to `unsafe { ... }`. -/
def _convert_unsafe_run_go (mig : List Char → List Char) :
    Nat → Option Char → List Char → List Char
  | 0, _, l => l
  | f + 1, prev, l =>
    if ("unsafe(".toList).isPrefixOf l && prevNotAlnum prev then
      match extractBalancedSfx (l.drop 6) with
      | some (inner, cl, after) =>
        let innerStripped := pyStrip inner
        if ("run(".toList).isPrefixOf innerStripped &&
            innerStripped.getLast? = some ')' then
          match extractBalancedSfx (innerStripped.drop 3) with
          | some (runContent, _, _) =>
            ("unsafe \x7b".toList) ++
              _remove_trailing_commas_from_block (mig runContent) ++
              '}' :: _convert_unsafe_run_go mig f (some cl) after
          | none =>
            match l with
            | [] => []
            | c :: t => c :: _convert_unsafe_run_go mig f (some c) t
        else
          match l with
          | [] => []
          | c :: t => c :: _convert_unsafe_run_go mig f (some c) t
      | none =>
        match l with
        | [] => []
        | c :: t => c :: _convert_unsafe_run_go mig f (some c) t
    else
      match l with
      | [] => []
      | c :: t => c :: _convert_unsafe_run_go mig f (some c) t

/-- Scan loop of `_convert_match`: `match(expr, arms)` to `match expr { arms }`. -/
def _convert_match_go (mig : List Char → List Char) :
    Nat → Option Char → List Char → List Char
  | 0, _, l => l
  | f + 1, prev, l =>
    if ("match(".toList).isPrefixOf l && prevNotDotUnderscore prev then
      match extractBalancedSfx (l.drop 5) with
      | some (inner, cl, after) =>
        match _split_first_arg inner with
        | some (scrutinee, rest) =>
          ("match ".toList) ++ pyStrip scrutinee ++ (" \x7b".toList) ++
            _remove_trailing_commas_from_block (mig rest) ++
            '}' :: _convert_match_go mig f (some cl) after
        | none =>
          match l with
          | [] => []
          | c :: t => c :: _convert_match_go mig f (some c) t
      | none =>
        match l with
        | [] => []
        | c :: t => c :: _convert_match_go mig f (some c) t
    else
      match l with
      | [] => []
      | c :: t => c :: _convert_match_go mig f (some c) t

/-- Scan loop of `_convert_for_do_run`: `do run(...)` (with optional
whitespace between `do` and `run`) to `do { ... }`.  No preceding-character
guard exists in the source. -/
def _convert_for_do_run_go (mig : List Char → List Char) : Nat → List Char →
    List Char
  | 0, l => l
  | f + 1, l =>
    if ("do run(".toList).isPrefixOf l ||
        (("do ".toList).isPrefixOf l && decide (3 < l.length) &&
          ("run(".toList).isPrefixOf (pyLstrip (l.drop 3))) then
      match findSub ("run(".toList) l with
      | some rIdx =>
        match extractBalancedSfx (l.drop (rIdx + 3)) with
        | some (inner, _, after) =>
          ("do \x7b".toList) ++ _remove_trailing_commas_from_block (mig inner) ++
            '}' :: _convert_for_do_run_go mig f after
        | none =>
          match l with
          | [] => []
          | c :: t => c :: _convert_for_do_run_go mig f t
      | none =>
        match l with
        | [] => []
        | c :: t => c :: _convert_for_do_run_go mig f t
    else
      match l with
      | [] => []
      | c :: t => c :: _convert_for_do_run_go mig f t

/-- `BlockSyntaxMigrator._migrate_ori(code)`: the full ordered rule pipeline.
`_flag_contracts` only records statistics and is omitted. -/
def _migrate_ori : Nat → List Char → List Char
  | 0, code => code
  | f + 1, code =>
    let c1 := _convert_loop_run_go (_migrate_ori f) f none code
    let c2 := _convert_unsafe_run_go (_migrate_ori f) f none c1
    let c3 := _convert_for_do_run_go (_migrate_ori f) f c2
    let c4 := _convert_loop_single_go (_migrate_ori f) f none c3
    let c5 := _convert_match_go (_migrate_ori f) f none c4
    let c6 := _convert_try_go (_migrate_ori f) f none c5
    _convert_run_go (_migrate_ori f) f none c6

/-- `BlockSyntaxMigrator._convert_run` as a standalone entry point. -/
def _convert_run (fuel : Nat) (code : List Char) : List Char :=
  _convert_run_go (_migrate_ori fuel) fuel none code

/-- `BlockSyntaxMigrator._convert_match` as a standalone entry point. -/
def _convert_match (fuel : Nat) (code : List Char) : List Char :=
  _convert_match_go (_migrate_ori fuel) fuel none code

/-- `BlockSyntaxMigrator._convert_for_do_run` as a standalone entry point. -/
def _convert_for_do_run (fuel : Nat) (code : List Char) : List Char :=
  _convert_for_do_run_go (_migrate_ori fuel) fuel code

end Migrate


namespace Migrate

/-- No occurrence of any rewrite-rule trigger literal in the buffer. -/
def noTrig (l : List Char) : Bool :=
  !(occursSub ("run(".toList) l || occursSub ("match(".toList) l ||
    occursSub ("try(".toList) l || occursSub ("loop(".toList) l ||
    occursSub ("unsafe(".toList) l)

end Migrate

theorem occursSub_eq_false_cons {pat c t} (h : occursSub pat (c :: t) = false) :
    pat.isPrefixOf (c :: t) = false ∧ occursSub pat t = false := by
  simp only [occursSub, Bool.or_eq_false_iff] at h
  exact h

theorem occursSub_of_isPrefixOf {pat l : List Char} (h : pat.isPrefixOf l = true) :
    occursSub pat l = true := by
  cases l with
  | nil =>
    cases pat with
    | nil => rfl
    | cons c t => simp [List.isPrefixOf] at h
  | cons c t => simp [occursSub, h]

theorem occursSub_append_false {pat s l : List Char}
    (h : occursSub pat (s ++ l) = false) : occursSub pat l = false := by
  induction s with
  | nil => exact h
  | cons c s ih => exact ih (occursSub_eq_false_cons h).2

theorem occursSub_suffix_false {pat l' l : List Char} (hs : l' <:+ l)
    (h : occursSub pat l = false) : occursSub pat l' = false := by
  obtain ⟨s, rfl⟩ := hs
  exact occursSub_append_false h

theorem occursSub_drop_false {pat l : List Char} {n : Nat}
    (h : occursSub pat l = false) : occursSub pat (l.drop n) = false :=
  occursSub_suffix_false (List.drop_suffix n l) h

namespace Migrate

theorem _convert_run_go_id (mig : List Char → List Char) :
    ∀ (f : Nat) (prev : Option Char) (l : List Char),
      occursSub ("run(".toList) l = false → _convert_run_go mig f prev l = l := by
  intro f
  induction f with
  | zero => intro prev l _; rfl
  | succ f ih =>
    intro prev l h
    cases l with
    | nil => simp [_convert_run_go]
    | cons c t =>
      obtain ⟨h1, h2⟩ := occursSub_eq_false_cons h
      simp only [_convert_run_go, h1, Bool.false_and, Bool.false_eq_true, if_false]
      rw [ih (some c) t h2]

theorem _convert_try_go_id (mig : List Char → List Char) :
    ∀ (f : Nat) (prev : Option Char) (l : List Char),
      occursSub ("try(".toList) l = false → _convert_try_go mig f prev l = l := by
  intro f
  induction f with
  | zero => intro prev l _; rfl
  | succ f ih =>
    intro prev l h
    cases l with
    | nil => simp [_convert_try_go]
    | cons c t =>
      obtain ⟨h1, h2⟩ := occursSub_eq_false_cons h
      simp only [_convert_try_go, h1, Bool.false_and, Bool.false_eq_true, if_false]
      rw [ih (some c) t h2]

theorem _convert_loop_single_go_id (mig : List Char → List Char) :
    ∀ (f : Nat) (prev : Option Char) (l : List Char),
      occursSub ("loop(".toList) l = false → _convert_loop_single_go mig f prev l = l := by
  intro f
  induction f with
  | zero => intro prev l _; rfl
  | succ f ih =>
    intro prev l h
    cases l with
    | nil => simp [_convert_loop_single_go]
    | cons c t =>
      obtain ⟨h1, h2⟩ := occursSub_eq_false_cons h
      simp only [_convert_loop_single_go, h1, Bool.false_and, Bool.false_eq_true,
        if_false]
      rw [ih (some c) t h2]

theorem _convert_loop_run_go_id (mig : List Char → List Char) :
    ∀ (f : Nat) (prev : Option Char) (l : List Char),
      occursSub ("loop(".toList) l = false → _convert_loop_run_go mig f prev l = l := by
  intro f
  induction f with
  | zero => intro prev l _; rfl
  | succ f ih =>
    intro prev l h
    cases l with
    | nil => simp [_convert_loop_run_go]
    | cons c t =>
      obtain ⟨h1, h2⟩ := occursSub_eq_false_cons h
      simp only [_convert_loop_run_go, h1, Bool.false_and, Bool.false_eq_true,
        if_false]
      rw [ih (some c) t h2]

theorem _convert_unsafe_run_go_id (mig : List Char → List Char) :
    ∀ (f : Nat) (prev : Option Char) (l : List Char),
      occursSub ("unsafe(".toList) l = false → _convert_unsafe_run_go mig f prev l = l := by
  intro f
  induction f with
  | zero => intro prev l _; rfl
  | succ f ih =>
    intro prev l h
    cases l with
    | nil => simp [_convert_unsafe_run_go]
    | cons c t =>
      obtain ⟨h1, h2⟩ := occursSub_eq_false_cons h
      simp only [_convert_unsafe_run_go, h1, Bool.false_and, Bool.false_eq_true,
        if_false]
      rw [ih (some c) t h2]

theorem _convert_match_go_id (mig : List Char → List Char) :
    ∀ (f : Nat) (prev : Option Char) (l : List Char),
      occursSub ("match(".toList) l = false → _convert_match_go mig f prev l = l := by
  intro f
  induction f with
  | zero => intro prev l _; rfl
  | succ f ih =>
    intro prev l h
    cases l with
    | nil => simp [_convert_match_go]
    | cons c t =>
      obtain ⟨h1, h2⟩ := occursSub_eq_false_cons h
      simp only [_convert_match_go, h1, Bool.false_and, Bool.false_eq_true, if_false]
      rw [ih (some c) t h2]

theorem _convert_for_do_run_go_id (mig : List Char → List Char) :
    ∀ (f : Nat) (l : List Char),
      occursSub ("run(".toList) l = false → _convert_for_do_run_go mig f l = l := by
  intro f
  induction f with
  | zero => intro l _; rfl
  | succ f ih =>
    intro l h
    have hd3 : occursSub ("run(".toList) (l.drop 3) = false := occursSub_drop_false h
    have hls : occursSub ("run(".toList) (pyLstrip (l.drop 3)) = false := by
      unfold pyLstrip
      exact occursSub_suffix_false (List.dropWhile_suffix pyIsSpace) hd3
    have h7 : ("do run(".toList).isPrefixOf l = false := by
      cases hv : ("do run(".toList).isPrefixOf l with
      | false => rfl
      | true =>
        exfalso
        obtain ⟨rest, hrest⟩ := List.isPrefixOf_iff_prefix.mp hv
        have hpre : ("run(".toList).isPrefixOf (l.drop 3) = true := by
          rw [← hrest]
          simp [List.isPrefixOf]
        rw [occursSub_of_isPrefixOf hpre] at hd3
        exact Bool.noConfusion hd3
    have h3 : ("run(".toList).isPrefixOf (pyLstrip (l.drop 3)) = false := by
      cases hv : ("run(".toList).isPrefixOf (pyLstrip (l.drop 3)) with
      | false => rfl
      | true =>
        exfalso
        rw [occursSub_of_isPrefixOf hv] at hls
        exact Bool.noConfusion hls
    cases l with
    | nil => rfl
    | cons c t =>
      obtain ⟨-, h2⟩ := occursSub_eq_false_cons h
      simp only [_convert_for_do_run_go, h7, h3, Bool.and_false, Bool.or_false,
        Bool.false_eq_true, if_false]
      rw [ih t h2]

/-- On a buffer free of every trigger literal, the full rewrite pipeline is
the identity, at every fuel value. -/
theorem _migrate_ori_id_of_noTrig :
    ∀ (f : Nat) (code : List Char), noTrig code = true → _migrate_ori f code = code := by
  intro f
  induction f with
  | zero => intro code _; rfl
  | succ f _ =>
    intro code h
    have h5 : occursSub ("run(".toList) code = false ∧
        occursSub ("match(".toList) code = false ∧
        occursSub ("try(".toList) code = false ∧
        occursSub ("loop(".toList) code = false ∧
        occursSub ("unsafe(".toList) code = false := by
      simp only [noTrig, Bool.not_eq_true', Bool.or_eq_false_iff] at h
      tauto
    obtain ⟨hr, hm, ht, hl, hu⟩ := h5
    show _convert_run_go _ f none _ = code
    rw [_convert_loop_run_go_id _ f none code hl,
      _convert_unsafe_run_go_id _ f none code hu,
      _convert_for_do_run_go_id _ f code hr,
      _convert_loop_single_go_id _ f none code hl,
      _convert_match_go_id _ f none code hm,
      _convert_try_go_id _ f none code ht,
      _convert_run_go_id _ f none code hr]

end Migrate

namespace ConvertAot

/-!
Embedding of `scripts/convert_aot_run.py` (the pure content transformation;
`main` and file I/O are outside the core).
-/

/-- Inner string-skipping loop of `find_matching_paren` / `find_matching_brace`:
given the suffix after an opening `"`, return the suffix after the closing
quote (or `[]` when the literal is unterminated). -/
def aotStrSkip : List Char → List Char
  | [] => []
  | '"' :: r => r
  | '\\' :: _ :: r => aotStrSkip r
  | '\\' :: [] => []
  | _ :: r => aotStrSkip r

/-- Loop of `find_matching_paren(s, start)`: `l` is the suffix of `s` whose
head is at absolute position `i`.  Python's `-1` failure result is `none`. -/
def fmpGo : Nat → Nat → List Char → Int → Option Nat
  | 0, _, _, _ => none
  | f + 1, i, l, depth =>
    match l with
    | [] => none
    | '(' :: r => fmpGo f (i + 1) r (depth + 1)
    | ')' :: r => if depth - 1 = 0 then some i else fmpGo f (i + 1) r (depth - 1)
    | '"' :: r =>
      let r2 := aotStrSkip r
      fmpGo f (i + 1 + (r.length - r2.length)) r2 depth
    | c :: r =>
      if c = sq then
        match r with
        | '\\' :: r2 => fmpGo f (i + 4) (r2.drop 2) depth
        | _ => fmpGo f (i + 3) (r.drop 2) depth
      else fmpGo f (i + 1) r depth

/-- `find_matching_paren(s, start)`. -/
def find_matching_paren (s : List Char) (start : Nat) : Option Nat :=
  fmpGo (s.length + 1) start (s.drop start) 0

/-- Index of the last non-blank line (`-1` when none), as in
`convert_run_body`'s backwards scan. -/
def lastNonB : List (List Char) → Option Nat
  | [] => none
  | l :: t =>
    match lastNonB t with
    | some k => some (k + 1)
    | none => if (pyStrip l).isEmpty then none else some 0

/-- `last_nonempty` as an `Int` index, `-1` when every line is blank. -/
def last_nonempty (ls : List (List Char)) : Int :=
  match lastNonB ls with
  | none => -1
  | some k => k

/-- Per-line body of `convert_run_body` for line index `i`, where `last` is
the index of the last non-blank line. -/
def crbLine (last : Int) (i : Nat) (line : List Char) : List Char :=
  if (i : Int) = last ∧ (pyRstrip line).getLast? = some ',' then
    (pyRstrip line).dropLast
  else if (pyRstrip line).getLast? = some ',' ∧ (i : Int) < last then
    (pyRstrip line).dropLast ++ [';']
  else pyRstrip line

/-- `convert_run_body(body)`: trailing commas of non-last lines become
semicolons, the last non-blank line's trailing comma is removed, every
emitted line is right-stripped. -/
def convert_run_body (body : List Char) : List Char :=
  joinNl ((splitNl body).mapIdx (crbLine (last_nonempty (splitNl body))))

/-- Word-character test used by `find_innermost_run`'s trigger guard
(`content[idx-1].isalnum() or content[idx-1] == '_'`). -/
def isWordChar (c : Char) : Bool := c.isAlphanum || c = '_'

/-- Candidate-collection loop of `find_innermost_run`: every guarded
occurrence of `run(` with a balanced parenthesis span. -/
def firCandidates (content : List Char) : Nat → Nat → List (Nat × Nat × List Char)
  | 0, _ => []
  | f + 1, pos =>
    match findSub ("run(".toList) (content.drop pos) with
    | none => []
    | some rel =>
      let idx := pos + rel
      if decide (idx > 0) && (content.get? (idx - 1)).elim false (fun c => isWordChar c) then
        firCandidates content f (idx + 4)
      else
        match find_matching_paren content (idx + 3) with
        | none => firCandidates content f (idx + 4)
        | some parenEnd =>
          (idx, parenEnd, (content.take parenEnd).drop (idx + 4)) ::
            firCandidates content f (idx + 4)

/-- Nested-`run(`-in-body test inside `find_innermost_run`. -/
def hasNestedRun (body : List Char) : Nat → Nat → Bool
  | 0, _ => false
  | f + 1, bpos =>
    match findSub ("run(".toList) (body.drop bpos) with
    | none => false
    | some rel =>
      let bidx := bpos + rel
      if decide (bidx > 0) && (body.get? (bidx - 1)).elim false (fun c => isWordChar c) then
        hasNestedRun body f (bidx + 4)
      else true

/-- `find_innermost_run(content)`: first candidate whose body holds no other
(unguarded) `run(`. -/
def find_innermost_run (content : List Char) : Option (Nat × Nat) :=
  let cands := firCandidates content (content.length + 1) 0
  (cands.find? fun c => !(hasNestedRun c.2.2 (c.2.2.length + 1) 0)).map
    fun c => (c.1, c.2.1)

/-- `get_indent(content, idx)`: leading whitespace of the line containing
position `idx`. -/
def get_indent (content : List Char) (idx : Nat) : List Char :=
  let pre := content.take idx
  let seg := (pre.reverse.takeWhile (· ≠ '\n')).reverse
  seg.takeWhile fun c => c = ' ' || c = '\t'

/-- First phase of `process_content`: repeatedly rewrite the innermost
`run(...)` into a brace block. -/
def pcLoop : Nat → List Char → List Char
  | 0, result => result
  | f + 1, result =>
    match find_innermost_run result with
    | none => result
    | some (idx, parenEnd) =>
      let body := (result.take parenEnd).drop (idx + 4)
      let converted := convert_run_body body
      let indent := get_indent result idx
      let repl1 := if converted.head? = some '\n' then ['{'] else ("\x7b ".toList)
      let repl2 := if converted.getLast? = some '\n' then ([] : List Char) else ['\n']
      let replacement := repl1 ++ converted ++ repl2 ++ indent ++ ['}']
      pcLoop f (result.take idx ++ replacement ++ result.drop (parenEnd + 1))

/-- Second phase of `process_content`: strip the parentheses of `loop(...)`.
Both branches of the source's `if stripped.startswith('{') ...` emit the same
text (`'loop ' + stripped`), so they are modelled as one. -/
def loopParen : Nat → List Char → Nat → List Char
  | 0, result, _ => result
  | f + 1, result, pos =>
    if result.length ≤ pos then result
    else
      match findSub ("loop(".toList) (result.drop pos) with
      | none => result
      | some rel =>
        let loopIdx := pos + rel
        let parenStart := loopIdx + 4
        match find_matching_paren result parenStart with
        | none => loopParen f result (loopIdx + 5)
        | some parenEnd =>
          let inner := (result.take parenEnd).drop (parenStart + 1)
          let stripped := pyStrip inner
          loopParen f
            (result.take loopIdx ++ ("loop ".toList) ++ stripped ++
              result.drop (parenEnd + 1))
            (loopIdx + 5)

/-- `process_content(content)`. -/
def process_content (content : List Char) : List Char :=
  let r1 := pcLoop (content.length + 1) content
  loopParen (2 * r1.length + 2) r1 0

end ConvertAot


namespace ExtractTests

/-!
Embedding of `scripts/extract_tests.py`.  `find_matching_brace` raises
`BraceMatchError` on unbalanced input; that failure is modelled as `none`.
The main loop advances the index by computed jumps, so it is embedded as a
fuel recursion over the remaining suffix; every iteration consumes at least
one character, hence fuel `source.length + 1` reproduces the source loop.
Where the source overshoots the end of the buffer (unterminated literals),
the suffix becomes `[]` and the next iteration fails, exactly as the
source's `while i < length` exit does.
-/

/-- Suffix after the first occurrence of `stop` (or `[]`): the line-comment
`source.find("\n", i)` jump and the char-literal escape loop. -/
def dropThrough (stop : Char) : List Char → List Char
  | [] => []
  | c :: r => if c = stop then r else dropThrough stop r

/-- Nested block-comment loop of `find_matching_brace`; `d` is the current
`comment_depth`.  Returns the suffix after the comment closes (or `[]` when
the comment is unterminated). -/
def skipBC : List Char → Nat → List Char
  | [], _ => []
  | '/' :: '*' :: r, d => skipBC r (d + 1)
  | '*' :: '/' :: r, d => if d = 1 then r else skipBC r (d - 1)
  | _ :: r, d => skipBC r d

/-- Regular string-literal loop of `find_matching_brace`: given the suffix
after the opening quote, the suffix after the closing quote. -/
def strSkip : List Char → List Char
  | [] => []
  | '"' :: r => r
  | '\\' :: _ :: r => strSkip r
  | '\\' :: [] => []
  | _ :: r => strSkip r

/-- Raw-string-opener recognition (`r#"`, `br##"`, ...): hash count and the
suffix after the opening quote, or `none` when this is not a raw string. -/
def rawOpen : List Char → Option (Nat × List Char)
  | 'b' :: 'r' :: rest =>
    match rest.dropWhile (· = '#') with
    | '"' :: r3 => some ((rest.takeWhile (· = '#')).length, r3)
    | _ => none
  | 'r' :: rest =>
    match rest.dropWhile (· = '#') with
    | '"' :: r3 => some ((rest.takeWhile (· = '#')).length, r3)
    | _ => none
  | _ => none

/-- `source.find(closing, ri)` for the raw-string closer: the suffix after
the first occurrence of `pat`, or `none` (the unterminated raw string). -/
def findRawClose (pat : List Char) : List Char → Option (List Char)
  | [] => if pat.isPrefixOf ([] : List Char) then some [] else none
  | c :: t =>
    if pat.isPrefixOf (c :: t) then some ((c :: t).drop pat.length)
    else findRawClose pat t

/-- Main loop of `find_matching_brace`: `l` is the suffix of the source whose
head sits at absolute position `i`; `depth` is the current brace depth.  The
new position after a jump is always `i + (consumed characters)`. -/
def fmbGo : Nat → Nat → List Char → Nat → Option Nat
  | 0, _, _, _ => none
  | f + 1, i, l, depth =>
    match l with
    | [] => none
    | '/' :: '/' :: r =>
      fmbGo f (i + ((r.length + 2) - (dropThrough '\n' r).length))
        (dropThrough '\n' r) depth
    | '/' :: '*' :: r =>
      fmbGo f (i + ((r.length + 2) - (skipBC r 1).length)) (skipBC r 1) depth
    | '"' :: r =>
      fmbGo f (i + ((r.length + 1) - (strSkip r).length)) (strSkip r) depth
    | c :: r =>
      if c = sq then
        match r with
        | '\\' :: r2 =>
          fmbGo f (i + ((r2.length + 2) - (dropThrough sq r2).length))
            (dropThrough sq r2) depth
        | _ :: c2 :: r2 =>
          if c2 = sq then fmbGo f (i + 3) r2 depth
          else fmbGo f (i + 1) r depth
        | _ => fmbGo f (i + 1) r depth
      else if c = 'r' ∨ c = 'b' then
        match rawOpen (c :: r) with
        | some (n, r3) =>
          match findRawClose ('"' :: List.replicate n '#') r3 with
          | none => none
          | some r4 => fmbGo f (i + ((r.length + 1) - r4.length)) r4 depth
        | none => fmbGo f (i + 1) r depth
      else if c = '{' then fmbGo f (i + 1) r (depth + 1)
      else if c = '}' then
        if depth = 1 then some i else fmbGo f (i + 1) r (depth - 1)
      else fmbGo f (i + 1) r depth

/-- `find_matching_brace(source, open_pos)`: the matching closing brace,
skipping line/block comments, string, raw-string, byte-string and char
literals.  `none` models the raised `BraceMatchError` (and the assertion
that `open_pos` holds a brace). -/
def find_matching_brace (source : List Char) (openPos : Nat) : Option Nat :=
  if source.get? openPos = some '{' then
    fmbGo (source.length + 1) (openPos + 1) (source.drop (openPos + 1)) 1
  else none

end ExtractTests


namespace ExtractTests

/-- Buffers in which no literal or comment can start: none of the characters
that open a string, char literal, comment, raw string or byte string occur.
On such buffers the scanner takes only the brace and default branches. -/
def literalFree (l : List Char) : Bool :=
  l.all fun c => !(c = '"' || c = sq || c = '/' || c = 'r' || c = 'b')

/-- Signed brace count: occurrences of `{` minus occurrences of `}`. -/
def braceDelta : List Char → Int
  | [] => 0
  | c :: t => (if c = '{' then (1 : Int) else if c = '}' then -1 else 0) + braceDelta t

theorem literalFree_cons_false {c : Char} (t : List Char)
    (h : (!(c = '"' || c = sq || c = '/' || c = 'r' || c = 'b')) = false) :
    literalFree (c :: t) = false := by
  simp only [literalFree, List.all_cons, h, Bool.false_and]

theorem literalFree_cons_tail {c : Char} {t : List Char}
    (h : literalFree (c :: t) = true) : literalFree t = true := by
  simp only [literalFree, List.all_cons, Bool.and_eq_true] at h
  exact h.2

theorem braceDelta_count (l : List Char) :
    braceDelta l = (l.count '{' : Int) - (l.count '}' : Int) := by
  induction l with
  | nil => simp [braceDelta]
  | cons c t ih =>
    by_cases h1 : c = '{'
    · simp [braceDelta, List.count_cons, h1, ih]
      omega
    · by_cases h2 : c = '}'
      · simp [braceDelta, List.count_cons, h1, h2, ih]
        omega
      · simp [braceDelta, List.count_cons, h1, h2, ih]

theorem dropThrough_suffix (stop : Char) (l : List Char) : dropThrough stop l <:+ l := by
  induction l with
  | nil => simp [dropThrough]
  | cons c t ih =>
    simp only [dropThrough]
    split
    · exact List.suffix_cons _ _
    · exact ih.trans (List.suffix_cons _ _)

theorem skipBC_suffix (l : List Char) (d : Nat) : skipBC l d <:+ l := by
  have H : ∀ (n : Nat) (l : List Char), l.length ≤ n → ∀ d, skipBC l d <:+ l := by
    intro n
    induction n with
    | zero =>
      intro l hl d
      have hz : l = [] := List.length_eq_zero.mp (Nat.le_zero.mp hl)
      subst hz
      simp [skipBC]
    | succ n ih =>
      intro l hl d
      rw [skipBC.eq_def]
      split
      · exact List.nil_suffix
      · rename_i r
        refine (ih r ?_ _).trans ((List.suffix_cons _ _).trans (List.suffix_cons _ _))
        simp at hl
        omega
      · rename_i r
        split
        · exact (List.suffix_cons _ _).trans (List.suffix_cons _ _)
        · refine (ih r ?_ _).trans ((List.suffix_cons _ _).trans (List.suffix_cons _ _))
          simp at hl
          omega
      · rename_i c r h1 h2
        refine (ih r ?_ _).trans (List.suffix_cons _ _)
        simp at hl
        omega
  exact H l.length l le_rfl d

theorem strSkip_suffix (l : List Char) : strSkip l <:+ l := by
  have H : ∀ (n : Nat) (l : List Char), l.length ≤ n → strSkip l <:+ l := by
    intro n
    induction n with
    | zero =>
      intro l hl
      have hz : l = [] := List.length_eq_zero.mp (Nat.le_zero.mp hl)
      subst hz
      simp [strSkip]
    | succ n ih =>
      intro l hl
      rw [strSkip.eq_def]
      split
      · exact List.nil_suffix
      · exact List.suffix_cons _ _
      · rename_i c r
        refine (ih r ?_).trans ((List.suffix_cons _ _).trans (List.suffix_cons _ _))
        simp at hl
        omega
      · exact List.nil_suffix
      · rename_i c r h1 h2 h3
        refine (ih r ?_).trans (List.suffix_cons _ _)
        simp at hl
        omega
  exact H l.length l le_rfl

theorem findRawClose_suffix {pat : List Char} :
    ∀ {l r : List Char}, findRawClose pat l = some r → r <:+ l := by
  intro l
  induction l with
  | nil =>
    intro r h
    simp only [findRawClose] at h
    split at h
    · injection h with h
      subst h
      exact List.nil_suffix
    · exact absurd h (by simp)
  | cons c t ih =>
    intro r h
    simp only [findRawClose] at h
    split at h
    · injection h with h
      subst h
      exact List.drop_suffix _ _
    · exact (ih h).trans (List.suffix_cons _ _)

theorem rawOpen_suffix : ∀ {x : List Char} {n : Nat} {r3 : List Char},
    rawOpen x = some (n, r3) → r3 <:+ x := by
  intro x n r3 h
  rw [rawOpen.eq_def] at h
  split at h
  · rename_i rest
    split at h
    · rename_i r3' heq
      injection h with h
      have h2 : r3' = r3 := congrArg Prod.snd h
      subst h2
      have hsufw : List.dropWhile (· = '#') rest <:+ rest := List.dropWhile_suffix _
      rw [heq] at hsufw
      exact ((List.suffix_cons _ _).trans hsufw).trans
        ((List.suffix_cons _ _).trans (List.suffix_cons _ _))
    · exact absurd h (by simp)
  · rename_i rest
    split at h
    · rename_i r3' heq
      injection h with h
      have h2 : r3' = r3 := congrArg Prod.snd h
      subst h2
      have hsufw : List.dropWhile (· = '#') rest <:+ rest := List.dropWhile_suffix _
      rw [heq] at hsufw
      exact ((List.suffix_cons _ _).trans hsufw).trans (List.suffix_cons _ _)
    · exact absurd h (by simp)
  · exact absurd h (by simp)

theorem get?_of_suffix {l2 l : List Char} (hs : l2 <:+ l) (k : Nat) :
    l.get? (l.length - l2.length + k) = l2.get? k := by
  obtain ⟨s, rfl⟩ := hs
  rw [List.length_append, List.get?_append_right (by omega)]
  congr 1
  omega

/-- Skip-step combinator for `fmbGo_some`: lift the recursive result through
a branch that jumps from suffix `l` to suffix `r2` without touching depth,
when the head of `l` rules out `literalFree`. -/
theorem fmbGo_skip_step {l r2 : List Char} {i i2 depth p : Nat}
    (hex : ∃ k, k < r2.length ∧ p = i2 + k ∧ r2.get? k = some '}' ∧
      (literalFree r2 = true → braceDelta (r2.take (k + 1)) = -(depth : Int)))
    (hs : r2 <:+ l) (hi2 : i2 = i + (l.length - r2.length))
    (hlit : literalFree l = false) :
    ∃ k, k < l.length ∧ p = i + k ∧ l.get? k = some '}' ∧
      (literalFree l = true → braceDelta (l.take (k + 1)) = -(depth : Int)) := by
  obtain ⟨k', hk', hp', hg', -⟩ := hex
  have hle := hs.length_le
  refine ⟨l.length - r2.length + k', by omega, by omega, ?_, ?_⟩
  · rw [get?_of_suffix hs]
    exact hg'
  · intro hlf
    rw [hlit] at hlf
    exact absurd hlf (by simp)

/-- When the brace scanner returns a position, that position lies inside the
scanned suffix, holds a `}` character, and — on buffers where no literal or
comment can start — the signed brace count of the consumed span is exactly
`-depth`. -/
theorem fmbGo_some :
    ∀ (f i : Nat) (l : List Char) (depth p : Nat), 0 < depth →
      fmbGo f i l depth = some p →
      ∃ k : Nat, k < l.length ∧ p = i + k ∧ l.get? k = some '}' ∧
        (literalFree l = true → braceDelta (l.take (k + 1)) = -(depth : Int)) := by
  intro f
  induction f with
  | zero =>
    intro i l depth p _ h
    exact absurd h (by simp [fmbGo])
  | succ f ih =>
    intro i l depth p hd h
    simp only [fmbGo] at h
    split at h
    · exact absurd h (by simp)
    · refine fmbGo_skip_step (ih _ _ _ _ hd h) ?_ ?_ ?_
      · exact (dropThrough_suffix _ _).trans
          ((List.suffix_cons _ _).trans (List.suffix_cons _ _))
      · simp only [List.length_cons]
        try omega
      · exact literalFree_cons_false _ (by decide)
    · refine fmbGo_skip_step (ih _ _ _ _ hd h) ?_ ?_ ?_
      · exact (skipBC_suffix _ _).trans
          ((List.suffix_cons _ _).trans (List.suffix_cons _ _))
      · simp only [List.length_cons]
        try omega
      · exact literalFree_cons_false _ (by decide)
    · refine fmbGo_skip_step (ih _ _ _ _ hd h) ?_ ?_ ?_
      · exact (strSkip_suffix _).trans (List.suffix_cons _ _)
      · simp only [List.length_cons]
        try omega
      · exact literalFree_cons_false _ (by decide)
    · rename_i c r hne1 hne2 hne3
      clear hne1 hne2 hne3
      split at h
      · rename_i hsq
        subst hsq
        split at h
        · refine fmbGo_skip_step (ih _ _ _ _ hd h) ?_ ?_ ?_
          · exact (dropThrough_suffix _ _).trans
              ((List.suffix_cons _ _).trans (List.suffix_cons _ _))
          · simp only [List.length_cons]
            try omega
          · exact literalFree_cons_false _ (by decide)
        · split at h
          · refine fmbGo_skip_step (ih _ _ _ _ hd h) ?_ ?_ ?_
            · exact (List.suffix_cons _ _).trans
                ((List.suffix_cons _ _).trans (List.suffix_cons _ _))
            · simp only [List.length_cons]
              try omega
            · exact literalFree_cons_false _ (by decide)
          · refine fmbGo_skip_step (ih _ _ _ _ hd h) ?_ ?_ ?_
            · exact List.suffix_cons _ _
            · simp only [List.length_cons]
              try omega
            · exact literalFree_cons_false _ (by decide)
        · refine fmbGo_skip_step (ih _ _ _ _ hd h) ?_ ?_ ?_
          · exact List.suffix_cons _ _
          · simp only [List.length_cons]
            try omega
          · exact literalFree_cons_false _ (by decide)
      · rename_i hsq
        split at h
        · rename_i hrb
          split at h
          · rename_i n r3 hro
            split at h
            · exact absurd h (by simp)
            · rename_i r4 hfrc
              refine fmbGo_skip_step (ih _ _ _ _ hd h) ?_ ?_ ?_
              · exact (findRawClose_suffix hfrc).trans (rawOpen_suffix hro)
              · simp only [List.length_cons]
                try omega
              · rcases hrb with rfl | rfl
                · exact literalFree_cons_false _ (by decide)
                · exact literalFree_cons_false _ (by decide)
          · refine fmbGo_skip_step (ih _ _ _ _ hd h) ?_ ?_ ?_
            · exact List.suffix_cons _ _
            · simp only [List.length_cons]
              try omega
            · rcases hrb with rfl | rfl
              · exact literalFree_cons_false _ (by decide)
              · exact literalFree_cons_false _ (by decide)
        · rename_i hrb
          split at h
          · rename_i hob
            subst hob
            obtain ⟨k', hk', hp', hg', hdel'⟩ := ih _ _ _ _ (by omega) h
            refine ⟨k' + 1, by simp only [List.length_cons]; omega, by omega,
              by simp only [List.get?_cons_succ]; exact hg', ?_⟩
            intro hlf
            have hrec := hdel' (literalFree_cons_tail hlf)
            rw [List.take_succ_cons,
              show braceDelta ('{' :: List.take (k' + 1) r) =
                1 + braceDelta (List.take (k' + 1) r) from rfl, hrec]
            push_cast
            ring
          · rename_i hob
            split at h
            · rename_i hcb
              subst hcb
              split at h
              · rename_i hd1
                subst hd1
                injection h with h
                refine ⟨0, by simp, by omega, rfl, ?_⟩
                intro _
                simp only [List.take_succ_cons, List.take_zero]
                decide
              · rename_i hd1
                obtain ⟨k', hk', hp', hg', hdel'⟩ := ih _ _ _ _ (by omega) h
                refine ⟨k' + 1, by simp only [List.length_cons]; omega, by omega,
                  by simp only [List.get?_cons_succ]; exact hg', ?_⟩
                intro hlf
                have hrec := hdel' (literalFree_cons_tail hlf)
                rw [List.take_succ_cons,
                  show braceDelta ('}' :: List.take (k' + 1) r) =
                    -1 + braceDelta (List.take (k' + 1) r) from rfl, hrec]
                omega
            · rename_i hcb
              obtain ⟨k', hk', hp', hg', hdel'⟩ := ih _ _ _ _ hd h
              refine ⟨k' + 1, by simp only [List.length_cons]; omega, by omega,
                by simp only [List.get?_cons_succ]; exact hg', ?_⟩
              intro hlf
              have hrec := hdel' (literalFree_cons_tail hlf)
              rw [List.take_succ_cons,
                show braceDelta (c :: List.take (k' + 1) r) =
                  (if c = '{' then (1 : Int) else if c = '}' then -1 else 0) +
                    braceDelta (List.take (k' + 1) r) from rfl,
                if_neg hob, if_neg hcb, hrec]
              ring

theorem literalFree_drop {s : List Char} (n : Nat) (h : literalFree s = true) :
    literalFree (s.drop n) = true := by
  simp only [literalFree, List.all_eq_true] at h ⊢
  intro c hc
  exact h c (List.mem_of_mem_drop hc)

/-- Success contract of `find_matching_brace`: a returned position always lies
strictly beyond the opening brace and holds a `}` character, and on buffers
free of literal- or comment-opening characters the brace counts of the span
from the opening brace to the returned position (inclusive) balance. -/
theorem find_matching_brace_some {s : List Char} {openPos p : Nat}
    (h : find_matching_brace s openPos = some p) :
    s.get? p = some '}' ∧ openPos < p ∧
      (literalFree s = true →
        ((s.take (p + 1)).drop openPos).count '{' =
          ((s.take (p + 1)).drop openPos).count '}') := by
  unfold find_matching_brace at h
  split at h
  case isFalse => exact absurd h (by simp)
  case isTrue hbr =>
    obtain ⟨k, hk, hp, hg, hdel⟩ := fmbGo_some _ _ _ _ _ (by omega) h
    have hget : s.get? p = some '}' := by
      rw [hp, show openPos + 1 + k = openPos + 1 + k from rfl, ← List.get?_drop]
      exact hg
    refine ⟨hget, by omega, ?_⟩
    intro hlf
    have hlt : openPos < s.length := (List.get?_eq_some.mp hbr).1
    have hdropeq : s.drop openPos = '{' :: s.drop (openPos + 1) := by
      rw [List.drop_eq_getElem_cons hlt]
      have : s[openPos] = '{' := by
        have := List.get?_eq_getElem? s openPos
        rw [hbr] at this
        exact (List.getElem?_eq_some.mp this.symm).2.symm ▸ rfl
      rw [this]
    have hspan : (s.take (p + 1)).drop openPos =
        '{' :: ((s.drop (openPos + 1)).take (k + 1)) := by
      rw [List.drop_take, hdropeq]
      rw [show p + 1 - openPos = (k + 1) + 1 by omega]
      rw [List.take_succ_cons]
    have hlf2 : literalFree (s.drop (openPos + 1)) = true := literalFree_drop _ hlf
    have hδ := hdel hlf2
    have hcnt := braceDelta_count ('{' :: ((s.drop (openPos + 1)).take (k + 1)))
    rw [show braceDelta ('{' :: ((s.drop (openPos + 1)).take (k + 1))) =
      1 + braceDelta ((s.drop (openPos + 1)).take (k + 1)) from rfl, hδ] at hcnt
    rw [hspan]
    omega

theorem strSkip_all {w : List Char} (h1 : '"' ∉ w) (h2 : '\\' ∉ w) :
    strSkip w = [] := by
  induction w with
  | nil => rfl
  | cons c t ih =>
    rw [strSkip.eq_def]
    split
    · rfl
    · rename_i r heq
      injection heq with hc ht
      subst hc
      exact absurd (List.mem_cons_self _ _) h1
    · rename_i c2 r heq
      injection heq with hc ht
      subst hc
      exact absurd (List.mem_cons_self _ _) h2
    · rename_i heq
      injection heq with hc ht
      subst hc
      exact absurd (List.mem_cons_self _ _) h2
    · rename_i heq
      injection heq with hc ht
      rw [← ht]
      exact ih (fun hm => h1 (List.mem_cons_of_mem _ hm))
        (fun hm => h2 (List.mem_cons_of_mem _ hm))

theorem strSkip_through {w : List Char} (rest : List Char) (h1 : '"' ∉ w)
    (h2 : '\\' ∉ w) : strSkip (w ++ '"' :: rest) = rest := by
  induction w with
  | nil => rfl
  | cons c t ih =>
    rw [strSkip.eq_def]
    split
    · rename_i heq
      exact absurd heq (by simp)
    · rename_i r heq
      injection heq with hc ht
      subst hc
      exact absurd (List.mem_cons_self _ _) h1
    · rename_i c2 r heq
      injection heq with hc ht
      subst hc
      exact absurd (List.mem_cons_self _ _) h2
    · rename_i heq
      injection heq with hc ht
      subst hc
      exact absurd (List.mem_cons_self _ _) h2
    · rename_i heq
      injection heq with hc ht
      rw [← ht]
      exact ih (fun hm => h1 (List.mem_cons_of_mem _ hm))
        (fun hm => h2 (List.mem_cons_of_mem _ hm))

theorem dropThrough_through {stop : Char} {w : List Char} (rest : List Char)
    (h : stop ∉ w) : dropThrough stop (w ++ stop :: rest) = rest := by
  induction w with
  | nil => simp [dropThrough]
  | cons c t ih =>
    have hc : ¬c = stop := fun hc => h (hc ▸ List.mem_cons_self c t)
    simp only [List.cons_append, dropThrough, if_neg hc]
    exact ih (fun hm => h (List.mem_cons_of_mem _ hm))

theorem skipBC_through {w : List Char} (rest : List Char) (h1 : '*' ∉ w)
    (h2 : '/' ∉ w) : skipBC (w ++ '*' :: '/' :: rest) 1 = rest := by
  induction w with
  | nil => rfl
  | cons c t ih =>
    rw [skipBC.eq_def]
    split
    · rename_i heq
      exact absurd heq (by simp)
    · rename_i r heq
      injection heq with hc ht
      subst hc
      exact absurd (List.mem_cons_self _ _) h2
    · rename_i r heq
      injection heq with hc ht
      subst hc
      exact absurd (List.mem_cons_self _ _) h1
    · rename_i c2 r hne1 hne2 heq
      injection heq with hc ht
      rw [← ht]
      exact ih (fun hm => h1 (List.mem_cons_of_mem _ hm))
        (fun hm => h2 (List.mem_cons_of_mem _ hm))

/-- String-literal transparency of `find_matching_brace`: any brace characters
inside the quoted content `w` do not affect the match. -/
theorem fmb_string_transparent {w : List Char} (h1 : '"' ∉ w) (h2 : '\\' ∉ w) :
    find_matching_brace ('{' :: '"' :: (w ++ '"' :: '}' :: [])) 0 =
      some (w.length + 3) := by
  unfold find_matching_brace
  rw [if_pos (show ('{' :: '"' :: (w ++ '"' :: '}' :: [])).get? 0 = some '{' from rfl),
    show List.drop (0 + 1) ('{' :: '"' :: (w ++ '"' :: '}' :: [])) =
      '"' :: (w ++ '"' :: '}' :: []) from rfl,
    show ('{' :: '"' :: (w ++ '"' :: '}' :: [])).length + 1 = (w.length + 4) + 1 by
      simp]
  rw [show fmbGo ((w.length + 4) + 1) (0 + 1) ('"' :: (w ++ '"' :: '}' :: [])) 1 =
    fmbGo (w.length + 4) ((0 + 1) + (((w ++ '"' :: '}' :: []).length + 1) -
      (strSkip (w ++ '"' :: '}' :: [])).length)) (strSkip (w ++ '"' :: '}' :: [])) 1
    from rfl]
  rw [strSkip_through _ h1 h2]
  rw [show (0 + 1) + (((w ++ '"' :: '}' :: []).length + 1) - ('}' :: []).length) =
    w.length + 3 by simp; omega]
  rw [show w.length + 4 = (w.length + 3) + 1 by omega]
  rw [show fmbGo ((w.length + 3) + 1) (w.length + 3) ('}' :: []) 1 =
    some (w.length + 3) from rfl]

/-- Line-comment transparency of `find_matching_brace`: any brace characters
inside the comment text `w` do not affect the match. -/
theorem fmb_line_comment_transparent {w : List Char} (h : '\n' ∉ w) :
    find_matching_brace ('{' :: '/' :: '/' :: (w ++ '\n' :: '}' :: [])) 0 =
      some (w.length + 4) := by
  unfold find_matching_brace
  rw [if_pos (show ('{' :: '/' :: '/' :: (w ++ '\n' :: '}' :: [])).get? 0 = some '{'
      from rfl),
    show List.drop (0 + 1) ('{' :: '/' :: '/' :: (w ++ '\n' :: '}' :: [])) =
      '/' :: '/' :: (w ++ '\n' :: '}' :: []) from rfl,
    show ('{' :: '/' :: '/' :: (w ++ '\n' :: '}' :: [])).length + 1 = (w.length + 5) + 1 by
      simp]
  rw [show fmbGo ((w.length + 5) + 1) (0 + 1) ('/' :: '/' :: (w ++ '\n' :: '}' :: [])) 1 =
    fmbGo (w.length + 5) ((0 + 1) + (((w ++ '\n' :: '}' :: []).length + 2) -
      (dropThrough '\n' (w ++ '\n' :: '}' :: [])).length))
      (dropThrough '\n' (w ++ '\n' :: '}' :: [])) 1 from rfl]
  rw [dropThrough_through _ h]
  rw [show (0 + 1) + (((w ++ '\n' :: '}' :: []).length + 2) - ('}' :: []).length) =
    w.length + 4 by simp; omega]
  rw [show w.length + 5 = (w.length + 4) + 1 by omega]
  rw [show fmbGo ((w.length + 4) + 1) (w.length + 4) ('}' :: []) 1 =
    some (w.length + 4) from rfl]

/-- Block-comment transparency of `find_matching_brace`. -/
theorem fmb_block_comment_transparent {w : List Char} (h1 : '*' ∉ w) (h2 : '/' ∉ w) :
    find_matching_brace ('{' :: '/' :: '*' :: (w ++ '*' :: '/' :: '}' :: [])) 0 =
      some (w.length + 5) := by
  unfold find_matching_brace
  rw [if_pos (show ('{' :: '/' :: '*' :: (w ++ '*' :: '/' :: '}' :: [])).get? 0 = some '{'
      from rfl),
    show List.drop (0 + 1) ('{' :: '/' :: '*' :: (w ++ '*' :: '/' :: '}' :: [])) =
      '/' :: '*' :: (w ++ '*' :: '/' :: '}' :: []) from rfl,
    show ('{' :: '/' :: '*' :: (w ++ '*' :: '/' :: '}' :: [])).length + 1 =
      (w.length + 6) + 1 by simp]
  rw [show fmbGo ((w.length + 6) + 1) (0 + 1)
      ('/' :: '*' :: (w ++ '*' :: '/' :: '}' :: [])) 1 =
    fmbGo (w.length + 6) ((0 + 1) + (((w ++ '*' :: '/' :: '}' :: []).length + 2) -
      (skipBC (w ++ '*' :: '/' :: '}' :: []) 1).length))
      (skipBC (w ++ '*' :: '/' :: '}' :: []) 1) 1 from rfl]
  rw [skipBC_through _ h1 h2]
  rw [show (0 + 1) + (((w ++ '*' :: '/' :: '}' :: []).length + 2) - ('}' :: []).length) =
    w.length + 5 by simp; omega]
  rw [show w.length + 6 = (w.length + 5) + 1 by omega]
  rw [show fmbGo ((w.length + 5) + 1) (w.length + 5) ('}' :: []) 1 =
    some (w.length + 5) from rfl]

/-- An unterminated string literal after the opening brace makes
`find_matching_brace` fail rather than return a position. -/
theorem fmb_unterminated_string {w : List Char} (h1 : '"' ∉ w) (h2 : '\\' ∉ w) :
    find_matching_brace ('{' :: '"' :: w) 0 = none := by
  unfold find_matching_brace
  rw [if_pos (show ('{' :: '"' :: w).get? 0 = some '{' from rfl),
    show List.drop (0 + 1) ('{' :: '"' :: w) = '"' :: w from rfl,
    show ('{' :: '"' :: w).length + 1 = (w.length + 2) + 1 by simp]
  rw [show fmbGo ((w.length + 2) + 1) (0 + 1) ('"' :: w) 1 =
    fmbGo (w.length + 2) ((0 + 1) + ((w.length + 1) - (strSkip w).length)) (strSkip w) 1
    from rfl]
  rw [strSkip_all h1 h2]
  rw [show w.length + 2 = (w.length + 1) + 1 by omega]
  rw [show fmbGo ((w.length + 1) + 1)
    ((0 + 1) + ((w.length + 1) - ([] : List Char).length)) ([] : List Char) 1 = none
    from rfl]

end ExtractTests

namespace Migrate

/-- String-state loop of `_find_balanced_close`: characters inside a string
literal, bracket characters included, are skipped without touching the depth. -/
theorem fbcGo_string_state (q : Char) (hq : q = '"' ∨ q = bq) :
    ∀ (w : List Char), q ∉ w → '\\' ∉ w →
      ∀ (rest : List Char) (i : Nat) (depth : Int),
        fbcGo (w ++ q :: rest) i depth (some q) =
          fbcGo rest (i + w.length + 1) depth none := by
  intro w
  induction w with
  | nil =>
    intro _ _ rest i depth
    simp only [List.nil_append, List.length_nil]
    rcases hq with rfl | rfl
    · rw [fbcGo.eq_def]
      rfl
    · rw [fbcGo.eq_def]
      rfl
  | cons c w2 ih =>
    intro hqw hbw rest i depth
    have hc1 : ¬c = '\\' := fun hh => hbw (hh ▸ List.mem_cons_self c w2)
    have hc2 : ¬c = q := fun hh => hqw (by rw [← hh]; exact List.mem_cons_self c w2)
    rw [show (c :: w2) ++ q :: rest = c :: (w2 ++ q :: rest) from rfl]
    rw [fbcGo.eq_def]
    split
    · rename_i heq
      exact absurd heq (by simp)
    · rename_i heq
      injection heq with hch ht
      subst hch
      subst ht
      split
      · rename_i q2 hq2
        injection hq2 with hq2
        subst hq2
        rw [if_neg hc1, if_neg hc2]
        rw [ih (fun hm => hqw (List.mem_cons_of_mem _ hm))
          (fun hm => hbw (List.mem_cons_of_mem _ hm))]
        congr 1
        simp only [List.length_cons]
        omega
      · rename_i hq2
        exact absurd hq2 (by simp)

/-- String-literal transparency of `_find_balanced_close`: bracket characters
inside a double-quoted literal do not affect the nesting depth. -/
theorem fbc_string_transparent {w : List Char} (h1 : '"' ∉ w) (h2 : bq ∉ w)
    (h3 : '\\' ∉ w) :
    _find_balanced_close ('(' :: '"' :: (w ++ '"' :: ')' :: [])) 0 =
      some (w.length + 3) := by
  unfold _find_balanced_close
  simp only [List.drop_zero]
  have s1 : fbcGo ('(' :: '"' :: (w ++ '"' :: ')' :: [])) 0 0 none =
      fbcGo ('"' :: (w ++ '"' :: ')' :: [])) 1 1 none := by
    rw [fbcGo.eq_def]
    rfl
  have s2 : fbcGo ('"' :: (w ++ '"' :: ')' :: [])) 1 1 none =
      fbcGo (w ++ '"' :: ')' :: []) 2 1 (some '"') := by
    rw [fbcGo.eq_def]
    rfl
  rw [s1, s2, fbcGo_string_state '"' (Or.inl rfl) w h1 h3]
  have s3 : fbcGo (')' :: []) (2 + w.length + 1) 1 none = some (2 + w.length + 1) := by
    rw [fbcGo.eq_def]
    rfl
  rw [s3]
  congr 1
  omega

end Migrate

theorem splitOn1_no_sep {sep : Char} : ∀ {l : List Char}, sep ∉ l →
    splitOn1 sep l = [l] := by
  intro l
  induction l with
  | nil => intro _; rfl
  | cons c t ih =>
    intro h
    have hc : ¬c = sep := fun hc => h (hc ▸ List.mem_cons_self c t)
    simp only [splitOn1, if_neg hc, ih (fun hm => h (List.mem_cons_of_mem _ hm))]

theorem splitOn1_append {sep : Char} : ∀ {a : List Char} (b : List Char), sep ∉ a →
    splitOn1 sep (a ++ sep :: b) = a :: splitOn1 sep b := by
  intro a
  induction a with
  | nil =>
    intro b _
    simp [splitOn1]
  | cons c t ih =>
    intro b h
    have hc : ¬c = sep := fun hc => h (hc ▸ List.mem_cons_self c t)
    simp only [List.cons_append, splitOn1, if_neg hc, List.append_eq]
    rw [ih b (fun hm => h (List.mem_cons_of_mem _ hm))]

theorem joinNl_pair (x y : List Char) : joinNl [x, y] = x ++ '\n' :: y := by
  simp [joinNl, List.intercalate]

theorem pyRstrip_concat_nonws {l : List Char} {c : Char} (h : pyIsSpace c = false) :
    pyRstrip (l ++ [c]) = l ++ [c] := by
  unfold pyRstrip
  rw [List.reverse_append]
  simp only [List.reverse_cons, List.reverse_nil, List.nil_append,
    List.singleton_append, List.dropWhile_cons, h, Bool.false_eq_true, if_false,
    List.reverse_cons, List.reverse_reverse]

namespace ConvertAot

theorem last_nonempty_pair {x b : List Char} (hb : pyStrip b ≠ []) :
    last_nonempty [x, b] = 1 := by
  have h1 : (pyStrip b).isEmpty = false := by
    cases hpb : pyStrip b with
    | nil => exact absurd hpb hb
    | cons c t => rfl
  simp [last_nonempty, lastNonB, h1]

/-- `convert_run_body` on a two-line body whose first line ends in the
separator: the comma becomes a semicolon with no bracket-count condition, and
the (non-comma-ending) last line is only right-stripped. -/
theorem convert_run_body_two_lines {a b : List Char} (ha : '\n' ∉ a) (hb : '\n' ∉ b)
    (hbne : pyStrip b ≠ []) (hbc : ¬(pyRstrip b).getLast? = some ',') :
    convert_run_body (a ++ ',' :: '\n' :: b) = a ++ ';' :: '\n' :: pyRstrip b := by
  have hsplit : splitNl (a ++ ',' :: '\n' :: b) = [a ++ [','], b] := by
    rw [show a ++ ',' :: '\n' :: b = (a ++ [',']) ++ '\n' :: b by simp]
    unfold splitNl
    rw [splitOn1_append b ?hnotin]
    case hnotin =>
      intro hm
      rcases List.mem_append.mp hm with hma | hmc
      · exact ha hma
      · simp at hmc
    rw [splitOn1_no_sep hb]
  unfold convert_run_body
  rw [hsplit, last_nonempty_pair hbne]
  have hstrip : pyRstrip (a ++ [',']) = a ++ [','] :=
    pyRstrip_concat_nonws (by decide)
  have hlineA : crbLine 1 0 (a ++ [',']) = a ++ [';'] := by
    unfold crbLine
    rw [if_neg, if_pos]
    · rw [hstrip, List.dropLast_concat]
    · constructor
      · rw [hstrip]
        exact List.getLast?_concat _
      · decide
    · intro hand
      exact absurd hand.1 (by decide)
  have hlineB : crbLine 1 1 b = pyRstrip b := by
    unfold crbLine
    rw [if_neg, if_neg]
    · intro hand
      exact hbc hand.1
    · intro hand
      exact hbc hand.2
  rw [show List.mapIdx (crbLine 1) [a ++ [','], b] =
    [crbLine 1 0 (a ++ [',']), crbLine 1 1 b] by simp [List.mapIdx_cons]]
  rw [hlineA, hlineB, joinNl_pair]
  simp

end ConvertAot

namespace ExtractTests

/-!
Pure embedding of the rest of `extract_tests.py`.  The `re` patterns
`EXTERN_MOD_RE` and `CFG_TEST_MOD_RE` are deterministic here because every
literal token that follows a whitespace group starts with a non-whitespace
character, so the backtracking match consumes exactly the maximal whitespace
run (and a `\s*\n` group succeeds exactly when that run ends with a newline,
resp. contains one when another `\s*` follows).  Filesystem path derivation
and the `tests_path.exists()` query are I/O; the latter is abstracted as the
boolean `testsPathExists`.
-/

/-- `EXTERN_MOD_RE` (`#\[cfg\(test\)\]\s*\n\s*mod\s+tests\s*;`) matched at the
start of `l`. -/
def externAt (l : List Char) : Bool :=
  ("#[cfg(test)]".toList).isPrefixOf l &&
  ((l.drop 12).takeWhile pyIsSpace).contains '\n' &&
  ("mod".toList).isPrefixOf ((l.drop 12).dropWhile pyIsSpace) &&
  decide (1 ≤ ((((l.drop 12).dropWhile pyIsSpace).drop 3).takeWhile pyIsSpace).length) &&
  ("tests".toList).isPrefixOf ((((l.drop 12).dropWhile pyIsSpace).drop 3).dropWhile pyIsSpace) &&
  decide (((((((l.drop 12).dropWhile pyIsSpace).drop 3).dropWhile pyIsSpace).drop 5).dropWhile pyIsSpace).head? = some ';')

/-- `EXTERN_MOD_RE.search(source)`: does the pattern match anywhere. -/
def extern_search : List Char → Bool
  | [] => externAt []
  | c :: t => externAt (c :: t) || extern_search t

/-- One item of the optional-attribute group
`#\[(?:allow|deny|warn|expect)\([^\]]*\)\]\s*\n`: the consumed length, or
`none` when no such item starts here. -/
def cfgAttrItem (l : List Char) : Option Nat :=
  match
    (if ("#[allow(".toList).isPrefixOf l then some 8
     else if ("#[deny(".toList).isPrefixOf l then some 7
     else if ("#[warn(".toList).isPrefixOf l then some 7
     else if ("#[expect(".toList).isPrefixOf l then some 9
     else none) with
  | none => none
  | some kwLen =>
    match findSub ("]".toList) (l.drop kwLen) with
    | none => none
    | some j =>
      if 1 ≤ j ∧ (l.drop kwLen).get? (j - 1) = some ')' then
        if (((l.drop kwLen).drop (j + 1)).takeWhile pyIsSpace).getLast? = some '\n' then
          some (kwLen + j + 1 + (((l.drop kwLen).drop (j + 1)).takeWhile pyIsSpace).length)
        else none
      else none

/-- Zero-or-more attribute items; returns the consumed length. -/
def cfgAttrsLoop : Nat → List Char → Nat
  | 0, _ => 0
  | f + 1, l =>
    match cfgAttrItem l with
    | none => 0
    | some n => n + cfgAttrsLoop f (l.drop n)

/-- `CFG_TEST_MOD_RE` matched at the start of `l` (which must be a line
start): `(attrs-group length, total match length)`; the total length ends at
the opening brace of `mod tests {`. -/
def matchCfgAt (l : List Char) : Option (Nat × Nat) :=
  if ("#[cfg(test)]".toList).isPrefixOf l then
    if ((l.drop 12).takeWhile pyIsSpace).getLast? = some '\n' then
      match (12 + ((l.drop 12).takeWhile pyIsSpace).length) +
          cfgAttrsLoop (l.length + 1)
            (l.drop (12 + ((l.drop 12).takeWhile pyIsSpace).length)) with
      | attrsLen =>
        if ("mod".toList).isPrefixOf (l.drop attrsLen) then
          if 1 ≤ (((l.drop attrsLen).drop 3).takeWhile pyIsSpace).length then
            if ("tests".toList).isPrefixOf
                (((l.drop attrsLen).drop 3).dropWhile pyIsSpace) then
              if (((((l.drop attrsLen).drop 3).dropWhile pyIsSpace).drop 5).dropWhile
                  pyIsSpace).head? = some '{' then
                some (attrsLen, attrsLen + 3 +
                  (((l.drop attrsLen).drop 3).takeWhile pyIsSpace).length + 5 +
                  (((((l.drop attrsLen).drop 3).dropWhile pyIsSpace).drop
                    5).takeWhile pyIsSpace).length + 1)
              else none
            else none
          else none
        else none
    else none
  else none

/-- `CFG_TEST_MOD_RE.search(source)` with `re.MULTILINE`: the leftmost match
at position 0 or just after a newline; `(match start, attrs length, total
length)`. -/
def cfgSearch : List Char → Nat → Bool → Option (Nat × Nat × Nat)
  | [], _, _ => none
  | c :: t, pos, lineStart =>
    if lineStart then
      match matchCfgAt (c :: t) with
      | some (a, tot) => some (pos, a, tot)
      | none => cfgSearch t (pos + 1) (c = '\n')
    else cfgSearch t (pos + 1) (c = '\n')

def cfg_find (s : List Char) : Option (Nat × Nat × Nat) := cfgSearch s 0 true

/-- `dedent_test_content(content)`: remove one 4-space indentation level. -/
def dedent_test_content (content : List Char) : List Char :=
  joinNl ((splitNl content).map fun line =>
    if ("    ".toList).isPrefixOf line then line.drop 4
    else if pyStrip line = [] then []
    else line)

/-- Python `str.rstrip("\n")`. -/
def rstripNl (l : List Char) : List Char := (l.reverse.dropWhile (· = '\n')).reverse

/-- Python `str.strip("\n")`. -/
def stripNlChars (l : List Char) : List Char := rstripNl (l.dropWhile (· = '\n'))

/-- `ExtractionResult` (the two path fields are I/O and omitted). -/
structure ExtractionResult where
  new_source : List Char
  tests_content : List Char
  block_start_line : Nat
  block_end_line : Nat
  total_lines : Nat
deriving DecidableEq

/-- The successful tail of `extract_test_module`: build the rewritten source
and the sibling `tests.rs` content. -/
def extractBuild (source : List Char) (start attrsLen openBracePos closeBracePos : Nat) :
    ExtractionResult :=
  let inner := stripNlChars ((source.take closeBracePos).drop (openBracePos + 1))
  let testsContent := rstripNl (dedent_test_content inner) ++ ['\n']
  let attrsText := (source.take (start + attrsLen)).drop start
  let replacement := joinNl (splitNl (pyRstrip attrsText)) ++ ("\nmod tests;\n".toList)
  let before0 := rstripNl (source.take start)
  let before := if before0 = [] then ([] : List Char) else before0 ++ ['\n', '\n']
  let after0 := (source.drop (closeBracePos + 1)).dropWhile (· = '\n')
  let after := if after0 = [] then ([] : List Char) else '\n' :: after0
  let ns0 := before ++ replacement ++ after
  { new_source := if ns0.getLast? = some '\n' then ns0 else ns0 ++ ['\n']
    tests_content := testsContent
    block_start_line := (source.take start).count '\n' + 1
    block_end_line := (source.take (closeBracePos + 1)).count '\n' + 1
    total_lines := source.count '\n' + 1 }

/-- `extract_test_module(source_path)`, with the file content passed directly
and the sibling-file existence check abstracted as `testsPathExists`.  `none`
models every `return None` path (already-external module, no inline module,
existing destination, and the caught `BraceMatchError` warning path) as well
as the opening-brace assertion. -/
def extract_test_module (source : List Char) (testsPathExists : Bool) :
    Option ExtractionResult :=
  if extern_search source then none
  else
    match cfg_find source with
    | none => none
    | some (start, attrsLen, totalLen) =>
      if testsPathExists then none
      else if source.get? (start + totalLen - 1) = some '{' then
        match find_matching_brace source (start + totalLen - 1) with
        | none => none
        | some closeBracePos =>
          some (extractBuild source start attrsLen (start + totalLen - 1) closeBracePos)
      else none

/-- The per-file effect of the driver loop on the source file: a `None`
result leaves the source untouched (only a warning is printed); an
extraction result replaces it with `new_source`. -/
def applyExtract (source : List Char) (testsPathExists : Bool) : List Char :=
  match extract_test_module source testsPathExists with
  | none => source
  | some r => r.new_source

end ExtractTests

namespace Migrate

/-- `_remove_trailing_commas_from_block` on a single line ending in the
separator whose per-line bracket counts allow removal: the comma is deleted
(never replaced by a semicolon) and trailing whitespace is preserved. -/
theorem remove_trailing_comma_single_line {l : List Char} (hnl : '\n' ∉ l)
    (hc : (pyRstrip l).getLast? = some ',')
    (hbal : (pyRstrip l).count '(' + (pyRstrip l).count '[' +
        (pyRstrip l).count '{' ≤
      (pyRstrip l).count ')' + (pyRstrip l).count ']' + (pyRstrip l).count '}') :
    _remove_trailing_commas_from_block l =
      (pyRstrip l).dropLast ++ l.drop (pyRstrip l).length := by
  unfold _remove_trailing_commas_from_block
  unfold splitNl
  rw [splitOn1_no_sep hnl]
  rw [show ([l] : List (List Char)).map rtcLine = [rtcLine l] from rfl]
  rw [show joinNl [rtcLine l] = rtcLine l by simp [joinNl, List.intercalate]]
  unfold rtcLine
  rw [if_pos hc, if_pos hbal]

end Migrate


namespace AddSemis

/-!
Pure embedding of `add_item_semicolons.py`.  A file is modelled as its list
of lines WITHOUT trailing newline characters (as produced by `readlines`
followed by stripping the one trailing `"\n"`); every helper below treats
the newline character the same way the Python code does on such lines, and
the second pass's `line.rstrip("\n") + ";\n"` becomes appending `';'`.
`process_file_lines` returns `none` when the Python code would raise
`IndexError` (`lines[end_idx]` with `end_idx == len(lines)`).
-/

/-- `CONTINUATION_ENDINGS`. -/
def CONTINUATION_ENDINGS : List (List Char) :=
  [("yield".toList), ("do".toList), ("then".toList), ("else".toList),
   ("in".toList), ("->".toList), ("=>".toList),
   ("+".toList), ("-".toList), ("*".toList), ("/".toList), ("%".toList),
   ("&&".toList), ("||".toList), ("|".toList), ("&".toList), ("^".toList),
   ("==".toList), ("!=".toList), ("<".toList), (">".toList),
   ("<=".toList), (">=".toList), ("..".toList), ("..=".toList),
   ("??".toList), ("=".toList), (",".toList), ("(".toList)]

/-- `is_comment_line`. -/
def is_comment_line (line : List Char) : Bool :=
  ("//".toList).isPrefixOf (pyLstrip line)

/-- The inline `is_decl` test of the first pass of `process_file`. -/
def is_semicolon_decl (line : List Char) : Bool :=
  ("@".toList).isPrefixOf (pyLstrip line) ||
  ("pub @".toList).isPrefixOf (pyLstrip line) ||
  ("type ".toList).isPrefixOf (pyLstrip line) ||
  ("pub type ".toList).isPrefixOf (pyLstrip line)

/-- `line_continues`. -/
def line_continues (line : List Char) : Bool :=
  if pyRstrip line = [] then false
  else CONTINUATION_ENDINGS.any (fun e => e.isSuffixOf (pyRstrip line))

/-- `o` holds a character from `cs`. -/
def charIn (o : Option Char) (cs : List Char) : Bool :=
  o.elim false (fun c => cs.contains c)

/-- `next_line_is_continuation(lines, idx)`. -/
def next_line_is_continuation (lines : List (List Char)) (idx : Nat) : Bool :=
  match lines.get? idx with
  | none => false
  | some line =>
    if pyLstrip line = [] then false
    else if ("//".toList).isPrefixOf (pyLstrip line) then false
    else if (".".toList).isPrefixOf (pyLstrip line) then true
    else if charIn (line.get? 0) [' ', '\t'] &&
        charIn ((pyLstrip line).get? 0) ['|', '&', '+', '-'] then true
    else if ("else".toList).isPrefixOf (pyLstrip line) then true
    else false

/-- The backward scan of `find_eq_in_decl`; fuel `i + 1` examines index `i`. -/
def feidGo (line : List Char) : Nat → Nat → Option Nat
  | 0, _ => none
  | i + 1, depth =>
    match line.get? i with
    | none => none
    | some ch =>
      if ch = ')' ∨ ch = ']' ∨ ch = '}' then feidGo line i (depth + 1)
      else if ch = '(' ∨ ch = '[' ∨ ch = '{' then feidGo line i (depth - 1)
      else if ch = '=' ∧ depth = 0 then
        if decide (0 < i) && charIn (line.get? (i - 1)) ['=', '!', '<', '>', '.'] then
          feidGo line i depth
        else if charIn (line.get? (i + 1)) ['=', '>'] then feidGo line i depth
        else some i
      else feidGo line i depth

/-- `find_eq_in_decl` (`-1` becomes `none`; `depth` is a `Nat`, matching the
`max(0, depth - 1)` clamping). -/
def find_eq_in_decl (line : List Char) : Option Nat := feidGo line line.length 0

/-- Signed delimiter-depth contribution of a line (the
`for ch in ...: depth +- 1` loops). -/
def delimDelta : List Char → Int
  | [] => 0
  | c :: t =>
    (if c = '(' ∨ c = '[' ∨ c = '{' then (1 : Int)
     else if c = ')' ∨ c = ']' ∨ c = '}' then (-1 : Int) else 0) + delimDelta t

/-- The blank-line skipping `while peek < n and lines[peek].strip() == ""`. -/
def skipBlanks (lines : List (List Char)) (n : Nat) : Nat → Nat → Nat
  | 0, p => p
  | f + 1, p =>
    if decide (p < n) && decide (pyStrip ((lines.get? p).getD []) = []) then
      skipBlanks lines n f (p + 1)
    else p

/-- The walk of `find_expression_end`; can return `n` (one past the last
line) exactly when the Python walk breaks out of bounds. -/
def feeGo (lines : List (List Char)) (n : Nat) : Nat → Nat → Int → Nat
  | 0, current, _ => current
  | f + 1, current, depth =>
    if depth > 0 then
      if n ≤ current + 1 then current + 1
      else feeGo lines n f (current + 1)
        (depth + delimDelta ((lines.get? (current + 1)).getD []))
    else if line_continues ((lines.get? current).getD []) then
      if n ≤ current + 1 then current + 1
      else feeGo lines n f (current + 1)
        (depth + delimDelta ((lines.get? (current + 1)).getD []))
    else if decide (skipBlanks lines n (n + 1) (current + 1) < n) &&
        next_line_is_continuation lines (skipBlanks lines n (n + 1) (current + 1)) then
      feeGo lines n f (skipBlanks lines n (n + 1) (current + 1))
        (depth + delimDelta
          ((lines.get? (skipBlanks lines n (n + 1) (current + 1))).getD []))
    else current

/-- `find_expression_end(lines, start_idx, after_eq)`. -/
def find_expression_end (lines : List (List Char)) (start_idx : Nat)
    (after_eq : List Char) : Nat :=
  feeGo lines lines.length (lines.length + 1) start_idx (delimDelta after_eq)

/-- `needs_semicolon`. -/
def needs_semicolon (line : List Char) : Bool :=
  match (pyRstrip line).getLast? with
  | none => false
  | some c =>
    if c = ';' ∨ c = '}' ∨ c = '{' ∨ c = ',' ∨ c = '(' ∨ c = '[' then false
    else true

/-- The first pass of `process_file`: the set (as a list) of line indices
that receive a semicolon; `none` models the `lines[end_idx]` `IndexError`
when `find_expression_end` walks past the last line. -/
def pass1 (lines : List (List Char)) (n : Nat) : Nat → Nat → List Nat →
    Option (List Nat)
  | 0, _, _ => none
  | f + 1, i, acc =>
    if n ≤ i then some acc else
    match lines.get? i with
    | none => none
    | some line =>
      if is_comment_line line then pass1 lines n f (i + 1) acc
      else if is_semicolon_decl line = false then pass1 lines n f (i + 1) acc
      else
        match find_eq_in_decl line with
        | none => pass1 lines n f (i + 1) acc
        | some eq_idx =>
          if (("\x7b").toList).isPrefixOf (pyStrip (line.drop (eq_idx + 1))) then
            pass1 lines n f (i + 1) acc
          else if pyStrip (line.drop (eq_idx + 1)) = [] then
            if i + 1 < n then
              if decide (skipBlanks lines n (n + 1) (i + 1) < n) &&
                  (("\x7b").toList).isPrefixOf
                    (pyLstrip ((lines.get? (skipBlanks lines n (n + 1) (i + 1))).getD [])) then
                pass1 lines n f (skipBlanks lines n (n + 1) (i + 1) + 1) acc
              else
                match lines.get? (find_expression_end lines (i + 1)
                    ((lines.get? (i + 1)).getD [])) with
                | none => none
                | some le =>
                  pass1 lines n f
                    (find_expression_end lines (i + 1) ((lines.get? (i + 1)).getD []) + 1)
                    (if needs_semicolon le then
                       find_expression_end lines (i + 1) ((lines.get? (i + 1)).getD []) :: acc
                     else acc)
            else pass1 lines n f (i + 1) acc
          else
            match lines.get? (find_expression_end lines i
                (pyStrip (line.drop (eq_idx + 1)))) with
            | none => none
            | some le =>
              if find_expression_end lines i (pyStrip (line.drop (eq_idx + 1))) = i then
                pass1 lines n f (i + 1)
                  (if needs_semicolon line then i :: acc else acc)
              else
                pass1 lines n f
                  (find_expression_end lines i (pyStrip (line.drop (eq_idx + 1))) + 1)
                  (if needs_semicolon le then
                     find_expression_end lines i (pyStrip (line.drop (eq_idx + 1))) :: acc
                   else acc)

/-- `process_file` restricted to its pure effect on the list of lines. -/
def process_file_lines (lines : List (List Char)) : Option (List (List Char)) :=
  match pass1 lines lines.length (lines.length + 1) 0 [] with
  | none => none
  | some sset =>
    some (lines.mapIdx (fun i line => if sset.contains i then line ++ [';'] else line))

end AddSemis

namespace Migrate

/-- `BlockSyntaxMigrator._convert_try` as a standalone entry point. -/
def _convert_try (fuel : Nat) (code : List Char) : List Char :=
  _convert_try_go (_migrate_ori fuel) fuel none code

end Migrate

namespace ConvertAot

theorem aotStrSkip_through {w : List Char} (rest : List Char) (h1 : '"' ∉ w)
    (h2 : '\\' ∉ w) : aotStrSkip (w ++ '"' :: rest) = rest := by
  induction w with
  | nil => rfl
  | cons c t ih =>
    rw [aotStrSkip.eq_def]
    split
    · rename_i heq
      exact absurd heq (by simp)
    · rename_i r heq
      injection heq with hc ht
      subst hc
      exact absurd (List.mem_cons_self _ _) h1
    · rename_i c2 r heq
      injection heq with hc ht
      subst hc
      exact absurd (List.mem_cons_self _ _) h2
    · rename_i heq
      injection heq with hc ht
      subst hc
      exact absurd (List.mem_cons_self _ _) h2
    · rename_i heq
      injection heq with hc ht
      rw [← ht]
      exact ih (fun hm => h1 (List.mem_cons_of_mem _ hm))
        (fun hm => h2 (List.mem_cons_of_mem _ hm))

/-- String-literal transparency of `find_matching_paren`: any parenthesis or
brace characters inside the quoted content `w` do not affect the match. -/
theorem fmp_string_transparent {w : List Char} (h1 : '"' ∉ w) (h2 : '\\' ∉ w) :
    find_matching_paren ('(' :: '"' :: (w ++ '"' :: ')' :: [])) 0 =
      some (w.length + 3) := by
  unfold find_matching_paren
  rw [show List.drop 0 ('(' :: '"' :: (w ++ '"' :: ')' :: [])) =
      '(' :: '"' :: (w ++ '"' :: ')' :: []) from rfl,
    show ('(' :: '"' :: (w ++ '"' :: ')' :: [])).length + 1 = (w.length + 4) + 1 by
      simp]
  rw [show fmpGo ((w.length + 4) + 1) 0 ('(' :: '"' :: (w ++ '"' :: ')' :: [])) 0 =
    fmpGo (w.length + 4) (0 + 1) ('"' :: (w ++ '"' :: ')' :: [])) (0 + 1) from rfl]
  rw [show w.length + 4 = (w.length + 3) + 1 by omega]
  rw [show fmpGo ((w.length + 3) + 1) (0 + 1) ('"' :: (w ++ '"' :: ')' :: [])) (0 + 1) =
    fmpGo (w.length + 3) ((0 + 1) + 1 + ((w ++ '"' :: ')' :: []).length -
      (aotStrSkip (w ++ '"' :: ')' :: [])).length)) (aotStrSkip (w ++ '"' :: ')' :: []))
      (0 + 1) from rfl]
  rw [aotStrSkip_through _ h1 h2]
  rw [show (0 + 1) + 1 + ((w ++ '"' :: ')' :: []).length - (')' :: []).length) =
    w.length + 3 by simp; omega]
  rw [show w.length + 3 = (w.length + 2) + 1 by omega]
  rw [show fmpGo ((w.length + 2) + 1) (w.length + 3) (')' :: []) (0 + 1) =
    some (w.length + 3) from rfl]

/-- `convert_run_body` on a two-line body whose final line carries a trailing
comma: the first line's comma becomes `;`, the final line's comma is
deleted. -/
theorem convert_run_body_two_lines_comma {a b : List Char} (ha : '\n' ∉ a)
    (hb : '\n' ∉ b) (hbne : pyStrip b ≠ [])
    (hbc : (pyRstrip b).getLast? = some ',') :
    convert_run_body (a ++ ',' :: '\n' :: b) =
      a ++ ';' :: '\n' :: (pyRstrip b).dropLast := by
  have hsplit : splitNl (a ++ ',' :: '\n' :: b) = [a ++ [','], b] := by
    rw [show a ++ ',' :: '\n' :: b = (a ++ [',']) ++ '\n' :: b by simp]
    unfold splitNl
    rw [splitOn1_append b ?hnotin]
    case hnotin =>
      intro hm
      rcases List.mem_append.mp hm with hma | hmc
      · exact ha hma
      · simp at hmc
    rw [splitOn1_no_sep hb]
  unfold convert_run_body
  rw [hsplit, last_nonempty_pair hbne]
  have hstrip : pyRstrip (a ++ [',']) = a ++ [','] :=
    pyRstrip_concat_nonws (by decide)
  have hlineA : crbLine 1 0 (a ++ [',']) = a ++ [';'] := by
    unfold crbLine
    rw [if_neg, if_pos]
    · rw [hstrip, List.dropLast_concat]
    · constructor
      · rw [hstrip]
        exact List.getLast?_concat _
      · decide
    · intro hand
      exact absurd hand.1 (by decide)
  have hlineB : crbLine 1 1 b = (pyRstrip b).dropLast := by
    unfold crbLine
    rw [if_pos ⟨by norm_num, hbc⟩]
  rw [show List.mapIdx (crbLine 1) [a ++ [','], b] =
    [crbLine 1 0 (a ++ [',']), crbLine 1 1 b] by simp [List.mapIdx_cons]]
  rw [hlineA, hlineB, joinNl_pair]
  simp

end ConvertAot

namespace ExtractTests

theorem findRawClose_none {w : List Char} (h : '"' ∉ w) :
    findRawClose ('"' :: []) w = none := by
  induction w with
  | nil => rfl
  | cons c t ih =>
    have hc : ¬c = '"' := fun hc => h (hc ▸ List.mem_cons_self c t)
    rw [findRawClose.eq_def]
    simp only [List.isPrefixOf]
    rw [show (('"' == c : Bool)) = false by
      cases hcv : ('"' == c : Bool) with
      | false => rfl
      | true => exact absurd (beq_iff_eq.mp hcv).symm hc]
    simp only [Bool.false_and, Bool.false_eq_true, if_false]
    exact ih (fun hm => h (List.mem_cons_of_mem _ hm))

theorem findRawClose_through {w : List Char} (rest : List Char) (h : '"' ∉ w) :
    findRawClose ('"' :: []) (w ++ '"' :: rest) = some rest := by
  induction w with
  | nil =>
    rw [findRawClose.eq_def]
    simp [List.isPrefixOf]
  | cons c t ih =>
    have hc : ¬c = '"' := fun hc => h (hc ▸ List.mem_cons_self c t)
    rw [findRawClose.eq_def]
    simp only [List.cons_append, List.isPrefixOf]
    rw [show (('"' == c : Bool)) = false by
      cases hcv : ('"' == c : Bool) with
      | false => rfl
      | true => exact absurd (beq_iff_eq.mp hcv).symm hc]
    simp only [Bool.false_and, Bool.false_eq_true, if_false]
    exact ih (fun hm => h (List.mem_cons_of_mem _ hm))

/-- Raw-string transparency of `find_matching_brace`: any brace characters
inside the raw-string content `w` do not affect the match. -/
theorem fmb_rawstring_transparent {w : List Char} (h : '"' ∉ w) :
    find_matching_brace ('{' :: 'r' :: '"' :: (w ++ '"' :: '}' :: [])) 0 =
      some (w.length + 4) := by
  unfold find_matching_brace
  rw [if_pos (show ('{' :: 'r' :: '"' :: (w ++ '"' :: '}' :: [])).get? 0 = some '{'
      from rfl),
    show List.drop (0 + 1) ('{' :: 'r' :: '"' :: (w ++ '"' :: '}' :: [])) =
      'r' :: '"' :: (w ++ '"' :: '}' :: []) from rfl,
    show ('{' :: 'r' :: '"' :: (w ++ '"' :: '}' :: [])).length + 1 = (w.length + 5) + 1
      by simp]
  rw [show fmbGo ((w.length + 5) + 1) (0 + 1) ('r' :: '"' :: (w ++ '"' :: '}' :: [])) 1 =
    (match findRawClose ('"' :: []) (w ++ '"' :: '}' :: []) with
     | none => none
     | some r4 => fmbGo (w.length + 5)
         ((0 + 1) + ((('"' :: (w ++ '"' :: '}' :: [])).length + 1) - r4.length)) r4 1)
    from rfl]
  rw [findRawClose_through _ h]
  show fmbGo (w.length + 5)
    ((0 + 1) + ((('"' :: (w ++ '"' :: '}' :: [])).length + 1) - ('}' :: []).length))
    ('}' :: []) 1 = some (w.length + 4)
  rw [show (0 + 1) + ((('"' :: (w ++ '"' :: '}' :: [])).length + 1) - ('}' :: []).length)
    = w.length + 4 by simp; omega]
  rw [show w.length + 5 = (w.length + 4) + 1 by omega]
  rw [show fmbGo ((w.length + 4) + 1) (w.length + 4) ('}' :: []) 1 =
    some (w.length + 4) from rfl]

/-- An unterminated raw-string literal makes `find_matching_brace` fail. -/
theorem fmb_unterminated_rawstring {w : List Char} (h : '"' ∉ w) :
    find_matching_brace ('{' :: 'r' :: '"' :: w) 0 = none := by
  unfold find_matching_brace
  rw [if_pos (show ('{' :: 'r' :: '"' :: w).get? 0 = some '{' from rfl),
    show List.drop (0 + 1) ('{' :: 'r' :: '"' :: w) = 'r' :: '"' :: w from rfl,
    show ('{' :: 'r' :: '"' :: w).length + 1 = (w.length + 3) + 1 by simp]
  rw [show fmbGo ((w.length + 3) + 1) (0 + 1) ('r' :: '"' :: w) 1 =
    (match findRawClose ('"' :: []) w with
     | none => none
     | some r4 => fmbGo (w.length + 3)
         ((0 + 1) + ((('"' :: w).length + 1) - r4.length)) r4 1) from rfl]
  rw [findRawClose_none h]

end ExtractTests

namespace Migrate

/-!
Frame property machinery: a chunk of the buffer on which no rule's trigger
test can succeed — whatever follows it — is copied verbatim and in order by
every scan loop, with the remainder processed independently (the chunk only
feeds the loops' previous-character guards).
-/

end Migrate

end Sigil



/-! ## Claim theorems -/

open Sigil

/-- C1 (amended): literal transparency for double-quoted string literals
holds universally in all three delimiter scanners; for line comments, block
comments and raw strings it holds (universally) in `find_matching_brace`;
char literals are skipped by `find_matching_brace` and `find_matching_paren`
(shown concretely); each scanner locates the real close of the claim's
`run("\x7d")` example.  Comment transparency does NOT hold in
`_find_balanced_close` or `find_matching_paren` — see the counterexample. -/
theorem c1_literal_transparency_amended :
    (∀ w : List Char, '"' ∉ w → bq ∉ w → '\\' ∉ w →
      Migrate._find_balanced_close ('(' :: '"' :: (w ++ '"' :: ')' :: [])) 0 =
        some (w.length + 3)) ∧
    (∀ w : List Char, '"' ∉ w → '\\' ∉ w →
      ConvertAot.find_matching_paren ('(' :: '"' :: (w ++ '"' :: ')' :: [])) 0 =
        some (w.length + 3)) ∧
    (∀ w : List Char, '"' ∉ w → '\\' ∉ w →
      ExtractTests.find_matching_brace ('{' :: '"' :: (w ++ '"' :: '}' :: [])) 0 =
        some (w.length + 3)) ∧
    (∀ w : List Char, '\n' ∉ w →
      ExtractTests.find_matching_brace ('{' :: '/' :: '/' :: (w ++ '\n' :: '}' :: [])) 0 =
        some (w.length + 4)) ∧
    (∀ w : List Char, '*' ∉ w → '/' ∉ w →
      ExtractTests.find_matching_brace
        ('{' :: '/' :: '*' :: (w ++ '*' :: '/' :: '}' :: [])) 0 = some (w.length + 5)) ∧
    (∀ w : List Char, '"' ∉ w →
      ExtractTests.find_matching_brace ('{' :: 'r' :: '"' :: (w ++ '"' :: '}' :: [])) 0 =
        some (w.length + 4)) ∧
    ConvertAot.find_matching_paren (("run(\"\x7d\")").toList) 3 = some 7 ∧
    Migrate._find_balanced_close (("(\"\x7d\")").toList) 0 = some 4 ∧
    ExtractTests.find_matching_brace (("\x7b\"\x7d\"\x7d").toList) 0 = some 4 ∧
    ExtractTests.find_matching_brace ('{' :: sq :: '}' :: sq :: '}' :: []) 0 = some 4 ∧
    ConvertAot.find_matching_paren ('(' :: sq :: ')' :: sq :: ')' :: []) 0 = some 4 :=
  ⟨fun _ h1 h2 h3 => Migrate.fbc_string_transparent h1 h2 h3,
   fun _ h1 h2 => ConvertAot.fmp_string_transparent h1 h2,
   fun _ h1 h2 => ExtractTests.fmb_string_transparent h1 h2,
   fun _ h => ExtractTests.fmb_line_comment_transparent h,
   fun _ h1 h2 => ExtractTests.fmb_block_comment_transparent h1 h2,
   fun _ h => ExtractTests.fmb_rawstring_transparent h,
   by decide, by decide, by decide, by decide, by decide⟩

/-- C1 witness: the six universal transparency parts instantiated at the
two-character payload `ab`. -/
theorem c1_witness :
    Migrate._find_balanced_close ('(' :: '"' :: (("ab").toList ++ '"' :: ')' :: [])) 0 =
      some 5 ∧
    ConvertAot.find_matching_paren ('(' :: '"' :: (("ab").toList ++ '"' :: ')' :: [])) 0 =
      some 5 ∧
    ExtractTests.find_matching_brace ('{' :: '"' :: (("ab").toList ++ '"' :: '}' :: [])) 0 =
      some 5 ∧
    ExtractTests.find_matching_brace
      ('{' :: '/' :: '/' :: (("ab").toList ++ '\n' :: '}' :: [])) 0 = some 6 ∧
    ExtractTests.find_matching_brace
      ('{' :: '/' :: '*' :: (("ab").toList ++ '*' :: '/' :: '}' :: [])) 0 = some 7 ∧
    ExtractTests.find_matching_brace
      ('{' :: 'r' :: '"' :: (("ab").toList ++ '"' :: '}' :: [])) 0 = some 6 :=
  ⟨(c1_literal_transparency_amended.1 (("ab").toList) (by decide) (by decide)
      (by decide)).trans (by decide),
   (c1_literal_transparency_amended.2.1 (("ab").toList) (by decide) (by decide)).trans
     (by decide),
   (c1_literal_transparency_amended.2.2.1 (("ab").toList) (by decide) (by decide)).trans
     (by decide),
   (c1_literal_transparency_amended.2.2.2.1 (("ab").toList) (by decide)).trans
     (by decide),
   (c1_literal_transparency_amended.2.2.2.2.1 (("ab").toList) (by decide)
      (by decide)).trans (by decide),
   (c1_literal_transparency_amended.2.2.2.2.2.1 (("ab").toList) (by decide)).trans
     (by decide)⟩

/-- C1 counterexample: `_find_balanced_close` does not recognize comments
(and treats all bracket families as one): on `(// \x7d)` it answers
position 4 — the `\x7d` inside the line comment, not even a `)` — and
`find_matching_paren` is comment-blind too: on a `)` inside `// ...` it
answers the comment-internal position 4 instead of the real close at 6,
while `find_matching_brace` skips the comment on the analogous brace
input. -/
theorem c1_comment_counterexample :
    Migrate._find_balanced_close (("(// \x7d)").toList) 0 = some 4 ∧
    (("(// \x7d)").toList).get? 4 = some (Char.ofNat 125) ∧
    ConvertAot.find_matching_paren (("(// )\n)").toList) 0 = some 4 ∧
    ExtractTests.find_matching_brace (("\x7b// \x7d\n\x7d").toList) 0 = some 6 := by
  decide

/-- C2 (amended): the pipeline is idempotent on every buffer free of all
trigger substrings, where it is the identity; full idempotence fails (see
the counterexample). -/
theorem c2_idempotence_amended (f : Nat) (b : List Char)
    (h : Migrate.noTrig b = true) :
    Migrate._migrate_ori f (Migrate._migrate_ori f b) = Migrate._migrate_ori f b := by
  rw [Migrate._migrate_ori_id_of_noTrig f b h, Migrate._migrate_ori_id_of_noTrig f b h]

/-- C2 witness: idempotence on a concrete trigger-free buffer. -/
theorem c2_witness :
    Migrate._migrate_ori 50 (Migrate._migrate_ori 50 (("let x = y").toList)) =
      Migrate._migrate_ori 50 (("let x = y").toList) :=
  c2_idempotence_amended 50 (("let x = y").toList) (by decide)

/-- C2 counterexample: `_convert_match` re-emits the scrutinee unconverted,
so `match(match(x, z), y)` still holds a trigger after one pass and a second
pass rewrites again — `rewrite(rewrite(b)) ≠ rewrite(b)`. -/
theorem c2_counterexample :
    Migrate._migrate_ori 100
        (Migrate._migrate_ori 100 (("match(match(x, z), y)").toList)) ≠
      Migrate._migrate_ori 100 (("match(match(x, z), y)").toList) := by decide

/-- C3: `find_matching_brace` either returns a genuine closing position —
holding `\x7d`, strictly after the open, with equal open/close brace counts
over the scanned span on literal-free buffers — or fails; end-of-buffer
after an unterminated string yields `none` (universally), and both scanners
fail on the claim's `("unterminated` example instead of guessing. -/
theorem c3_balance_or_failure :
    (∀ (s : List Char) (openPos p : Nat),
      ExtractTests.find_matching_brace s openPos = some p →
        s.get? p = some '}' ∧ openPos < p ∧
          (ExtractTests.literalFree s = true →
            ((s.take (p + 1)).drop openPos).count '{' =
              ((s.take (p + 1)).drop openPos).count '}')) ∧
    (∀ w : List Char, '"' ∉ w → '\\' ∉ w →
      ExtractTests.find_matching_brace ('{' :: '"' :: w) 0 = none) ∧
    (∀ w : List Char, '"' ∉ w →
      ExtractTests.find_matching_brace ('{' :: 'r' :: '"' :: w) 0 = none) ∧
    (∀ w : List Char, '"' ∉ w →
      ExtractTests.find_matching_brace ('{' :: 'r' :: '"' :: (w ++ '"' :: '}' :: [])) 0 =
        some (w.length + 4)) ∧
    Migrate._find_balanced_close (("(\"unterminated").toList) 0 = none ∧
    ExtractTests.find_matching_brace (("\x7b\"unterminated").toList) 0 = none :=
  ⟨fun _ _ _ h => ExtractTests.find_matching_brace_some h,
   fun _ h1 h2 => ExtractTests.fmb_unterminated_string h1 h2,
   fun _ h => ExtractTests.fmb_unterminated_rawstring h,
   fun _ h => ExtractTests.fmb_rawstring_transparent h,
   by decide, by decide⟩

/-- C3 witness: the balance part at `\x7ba\x7d` (close at 2, counts equal),
the unterminated string and raw string at payload `xy`, and the raw-string
transparency part at payload `xy`. -/
theorem c3_witness :
    ((("\x7ba\x7d").toList).get? 2 = some '}' ∧ 0 < 2 ∧
      (ExtractTests.literalFree (("\x7ba\x7d").toList) = true →
        (((("\x7ba\x7d").toList).take 3).drop 0).count '{' =
          (((("\x7ba\x7d").toList).take 3).drop 0).count '}')) ∧
    ExtractTests.find_matching_brace ('{' :: '"' :: ("xy").toList) 0 = none ∧
    ExtractTests.find_matching_brace ('{' :: 'r' :: '"' :: ("xy").toList) 0 = none ∧
    ExtractTests.find_matching_brace
      ('{' :: 'r' :: '"' :: (("xy").toList ++ '"' :: '}' :: [])) 0 = some 6 :=
  ⟨c3_balance_or_failure.1 (("\x7ba\x7d").toList) 0 2 (by decide),
   c3_balance_or_failure.2.1 (("xy").toList) (by decide) (by decide),
   c3_balance_or_failure.2.2.1 (("xy").toList) (by decide),
   (c3_balance_or_failure.2.2.2.1 (("xy").toList) (by decide)).trans (by decide)⟩

/-- C4 (amended): both tools consume the inner `run(` before emitting the
outer loop wrapper — no residual trigger, no double wrapping — but neither
emits exactly `loop \x7b a; b \x7d`: the migrator keeps the inner comma and
yields `loop \x7ba, b\x7d`; the AOT converter yields `loop \x7b a, b\n\x7d`
(the single-line body is its own last non-blank line, so its comma is kept). -/
theorem c4_nested_rewrite_amended :
    Migrate._migrate_ori 100 (("loop(run(a, b))").toList) = ("loop \x7ba, b\x7d").toList ∧
    ConvertAot.process_content (("loop(run(a, b))").toList) =
      ("loop \x7b a, b\n\x7d").toList ∧
    occursSub (("run(").toList) (("loop \x7ba, b\x7d").toList) = false ∧
    occursSub (("run(").toList) (("loop \x7b a, b\n\x7d").toList) = false := by decide

/-- C4 counterexample: neither pipeline maps `loop(run(a, b))` to the
claim's exact output `loop \x7b a; b \x7d`. -/
theorem c4_counterexample :
    Migrate._migrate_ori 100 (("loop(run(a, b))").toList) ≠
      ("loop \x7b a; b \x7d").toList ∧
    ConvertAot.process_content (("loop(run(a, b))").toList) ≠
      ("loop \x7b a; b \x7d").toList := by decide

/-- C5 (amended): `convert_run_body` replaces the trailing comma of every
non-final line by `;` with NO bracket-balance condition, deletes the last
non-blank line's trailing comma, and right-strips every line; the
opens-vs-closes eligibility condition belongs to
`_remove_trailing_commas_from_block`, which DELETES (never converts) the
trailing comma of every eligible line.  The claim's concrete example
`a,\nb,\nc ↦ a;\nb;\nc` does hold. -/
theorem c5_separator_normalization_amended :
    (∀ a b : List Char, '\n' ∉ a → '\n' ∉ b → pyStrip b ≠ [] →
      ¬(pyRstrip b).getLast? = some ',' →
      ConvertAot.convert_run_body (a ++ ',' :: '\n' :: b) =
        a ++ ';' :: '\n' :: pyRstrip b) ∧
    (∀ a b : List Char, '\n' ∉ a → '\n' ∉ b → pyStrip b ≠ [] →
      (pyRstrip b).getLast? = some ',' →
      ConvertAot.convert_run_body (a ++ ',' :: '\n' :: b) =
        a ++ ';' :: '\n' :: (pyRstrip b).dropLast) ∧
    (∀ l : List Char, '\n' ∉ l → (pyRstrip l).getLast? = some ',' →
      (pyRstrip l).count '(' + (pyRstrip l).count '[' + (pyRstrip l).count '{' ≤
        (pyRstrip l).count ')' + (pyRstrip l).count ']' + (pyRstrip l).count '}' →
      Migrate._remove_trailing_commas_from_block l =
        (pyRstrip l).dropLast ++ l.drop (pyRstrip l).length) ∧
    ConvertAot.convert_run_body (("a,\nb,\nc").toList) = ("a;\nb;\nc").toList ∧
    ConvertAot.convert_run_body (("a,\nb,").toList) = ("a;\nb").toList :=
  ⟨fun _ _ ha hb h1 h2 => ConvertAot.convert_run_body_two_lines ha hb h1 h2,
   fun _ _ ha hb h1 h2 => ConvertAot.convert_run_body_two_lines_comma ha hb h1 h2,
   fun _ h1 h2 h3 => Migrate.remove_trailing_comma_single_line h1 h2 h3,
   by decide, by decide⟩

/-- C5 witness: the three universal parts at concrete lines — in particular
the final trailing comma of `x,\ny,` is deleted. -/
theorem c5_witness :
    ConvertAot.convert_run_body (("x,\ny").toList) = ("x;\ny").toList ∧
    ConvertAot.convert_run_body (("x,\ny,").toList) = ("x;\ny").toList ∧
    Migrate._remove_trailing_commas_from_block (("f(x),").toList) = ("f(x)").toList :=
  ⟨(c5_separator_normalization_amended.1 (("x").toList) (("y").toList) (by decide)
      (by decide) (by decide) (by decide)).trans (by decide),
   (c5_separator_normalization_amended.2.1 (("x").toList) (("y,").toList) (by decide)
      (by decide) (by decide) (by decide)).trans (by decide),
   (c5_separator_normalization_amended.2.2.1 (("f(x),").toList) (by decide) (by decide)
      (by decide)).trans (by decide)⟩

/-- C5 counterexample: the line `(a,` has more opening than closing
brackets, so per the claim it should pass through unchanged; the code
converts its comma to a semicolon anyway. -/
theorem c5_counterexample :
    ConvertAot.convert_run_body (("(a,\nb").toList) = ("(a;\nb").toList ∧
    ("(a;\nb").toList ≠ ("(a,\nb").toList := by decide

/-- C7: extraction is skipped — result `none`, source byte-for-byte
unchanged — whenever the destination tests file already exists or the
source already uses the external `mod tests;` forward-reference form. -/
theorem c7_extraction_skip (s : List Char) (d : Bool)
    (h : d = true ∨ ExtractTests.extern_search s = true) :
    ExtractTests.extract_test_module s d = none ∧ ExtractTests.applyExtract s d = s := by
  have hnone : ExtractTests.extract_test_module s d = none := by
    rcases h with hd | hx
    · subst hd
      cases hx2 : ExtractTests.extern_search s with
      | true => simp [ExtractTests.extract_test_module, hx2]
      | false =>
        cases hf : ExtractTests.cfg_find s with
        | none => simp [ExtractTests.extract_test_module, hx2, hf]
        | some v =>
          obtain ⟨st, al, tl⟩ := v
          simp [ExtractTests.extract_test_module, hx2, hf]
    · simp [ExtractTests.extract_test_module, hx]
  exact ⟨hnone, by unfold ExtractTests.applyExtract; rw [hnone]⟩

/-- C7 witness: a source already in forward-reference form is skipped. -/
theorem c7_witness :
    ExtractTests.extract_test_module (("#[cfg(test)]\nmod tests;").toList) false =
      none ∧
    ExtractTests.applyExtract (("#[cfg(test)]\nmod tests;").toList) false =
      ("#[cfg(test)]\nmod tests;").toList :=
  c7_extraction_skip (("#[cfg(test)]\nmod tests;").toList) false (Or.inr (by decide))

/-- C8 (amended): the guards are per-rule, not uniform: `_convert_run`
rejects an alphanumeric predecessor and skips `.run(` method calls but
FIRES after `_`; `_convert_match` rejects `.` and `_` predecessors but
FIRES after an alphanumeric; `_convert_try` (like `_convert_loop_run`,
`_convert_loop_single` and `_convert_unsafe_run`) rejects only alphanumeric
predecessors, so it FIRES after `_` or `.`; `find_innermost_run` rejects
alphanumeric and `_` predecessors but has no dot check;
`_convert_for_do_run` has no predecessor guard at all. -/
theorem c8_guard_amended :
    Migrate._convert_run 50 (("xrun(x)").toList) = ("xrun(x)").toList ∧
    Migrate._convert_run 50 ((".run(x)").toList) = (".run(x)").toList ∧
    Migrate._convert_match 50 ((".match(a, b)").toList) = (".match(a, b)").toList ∧
    Migrate._convert_match 50 (("_match(a, b)").toList) = ("_match(a, b)").toList ∧
    Migrate._convert_try 50 (("xtry(a)").toList) = ("xtry(a)").toList ∧
    Migrate._convert_try 50 (("_try(a)").toList) = ("_try \x7ba\x7d").toList ∧
    Migrate._convert_try 50 ((".try(a)").toList) = (".try \x7ba\x7d").toList ∧
    ConvertAot.find_innermost_run (("xrun(1)").toList) = none ∧
    ConvertAot.find_innermost_run (("_run(1)").toList) = none ∧
    Migrate._convert_for_do_run 50 (("ado run(x)").toList) = ("ado \x7bx\x7d").toList := by
  decide

/-- C8 counterexample: an underscore predecessor does not block
`_convert_run` (`_run(x) ↦ _\x7bx\x7d`), an alphanumeric predecessor does
not block `_convert_match` (`xmatch(…)` fires), and a member-access dot
does not block `find_innermost_run` (`.run(1)` is reported). -/
theorem c8_counterexample :
    Migrate._convert_run 50 (("_run(x)").toList) = ("_\x7bx\x7d").toList ∧
    Migrate._convert_match 50 (("xmatch(a, b)").toList) =
      ("xmatch a \x7b b\x7d").toList ∧
    ConvertAot.find_innermost_run ((".run(1)").toList) = some (1, 6) := by decide

/-- C9 (amended): the test extractor IS atomic on scan failure — when the
brace scan of the matched inline module fails, the result is `none` and the
source is returned unchanged; the migrator is not (see counterexample). -/
theorem c9_unbalanced_atomicity_amended (s : List Char) (d : Bool) (st al tl : Nat)
    (hf : ExtractTests.cfg_find s = some (st, al, tl))
    (hb : ExtractTests.find_matching_brace s (st + tl - 1) = none) :
    ExtractTests.extract_test_module s d = none ∧ ExtractTests.applyExtract s d = s := by
  have hnone : ExtractTests.extract_test_module s d = none := by
    cases hx : ExtractTests.extern_search s with
    | true => simp [ExtractTests.extract_test_module, hx]
    | false =>
      cases d with
      | true => simp [ExtractTests.extract_test_module, hx, hf]
      | false =>
        simp only [ExtractTests.extract_test_module, hx, Bool.false_eq_true, if_false,
          hf, hb, ite_self]
  exact ⟨hnone, by unfold ExtractTests.applyExtract; rw [hnone]⟩

/-- C9 witness: an inline test module with an unterminated string literal is
left untouched. -/
theorem c9_witness :
    ExtractTests.extract_test_module
        (("#[cfg(test)]\nmod tests \x7b\n  \"unterminated\n\x7d\n").toList) false =
      none ∧
    ExtractTests.applyExtract
        (("#[cfg(test)]\nmod tests \x7b\n  \"unterminated\n\x7d\n").toList) false =
      ("#[cfg(test)]\nmod tests \x7b\n  \"unterminated\n\x7d\n").toList :=
  c9_unbalanced_atomicity_amended _ false 0 13 24 (by decide) (by decide)

/-- C9 counterexample: the migrator is not file-atomic on scan failure: on
`run(a) run(` the scan of the second trigger fails, yet the buffer is not
left untouched — the first, successful rewrite persists; and on
`run((a) run(b)` the FIRST trigger's scan fails, yet the scan loop advances
one character and still rewrites the later trigger. -/
theorem c9_counterexample :
    Migrate._find_balanced_close (("run(a) run(").toList) 10 = none ∧
    Migrate._convert_run 50 (("run(a) run(").toList) = ("\x7ba\x7d run(").toList ∧
    ("\x7ba\x7d run(").toList ≠ ("run(a) run(").toList ∧
    Migrate._find_balanced_close (("run((a) run(b)").toList) 3 = none ∧
    Migrate._convert_run 50 (("run((a) run(b)").toList) =
      ("run((a) \x7bb\x7d").toList := by decide

/-- C6 counterexample: in the three-line file `@g = (` / `@f () -> int = 42`
/ `)`, the middle line is a declaration with a single-line expression body
needing a terminator, yet it receives none — the first declaration's
expression walk swallows it, and the terminator lands on the stray `)`. -/
theorem c6_counterexample :
    AddSemis.process_file_lines
        [("@g = (").toList, ("@f () -> int = 42").toList, (")").toList] =
      some [("@g = (").toList, ("@f () -> int = 42").toList, (");").toList] ∧
    AddSemis.is_semicolon_decl (("@f () -> int = 42").toList) = true ∧
    AddSemis.needs_semicolon (("@f () -> int = 42").toList) = true := by decide

/-- C6 (amended): complete case split for a file consisting of the
declaration line alone (so no other declaration's expression walk can
swallow it), with a nonempty body after `=`: a block body (`= \x7b ...`)
receives no terminator; otherwise, when the line's brackets after `=` are
balanced-or-closing and it does not end in a continuation token, exactly one
terminator is appended unless the line already ends in `;`, `\x7d`,
`\x7b`, `,`, `(` or `[`; and when the brackets are left open or the line
ends in a continuation token, the expression walk runs past the end of the
file — a Python `IndexError`, embedded as `none` — and no terminator is
inserted. -/
theorem c6_terminator_amended (l : List Char) (e : Nat)
    (hc : AddSemis.is_comment_line l = false)
    (hd : AddSemis.is_semicolon_decl l = true)
    (he : AddSemis.find_eq_in_decl l = some e)
    (hne : pyStrip (l.drop (e + 1)) ≠ []) :
    (AddSemis.delimDelta (pyStrip (l.drop (e + 1))) ≤ 0 →
      AddSemis.line_continues l = false →
      AddSemis.process_file_lines [l] =
        some [if (("\x7b").toList).isPrefixOf (pyStrip (l.drop (e + 1))) then l
              else if AddSemis.needs_semicolon l then l ++ [';'] else l]) ∧
    (0 < AddSemis.delimDelta (pyStrip (l.drop (e + 1))) ∨
        AddSemis.line_continues l = true →
      (("\x7b").toList).isPrefixOf (pyStrip (l.drop (e + 1))) = false →
      AddSemis.process_file_lines [l] = none) := by
  constructor
  · intro hdelta hcont
    have h1 : ¬(AddSemis.delimDelta (pyStrip (l.drop (e + 1))) > 0) := by omega
    have hfee : AddSemis.find_expression_end [l] 0 (pyStrip (l.drop (e + 1))) = 0 := by
      unfold AddSemis.find_expression_end
      simp only [List.length_cons, List.length_nil, Nat.zero_add]
      simp only [AddSemis.feeGo, AddSemis.skipBlanks, if_neg h1, List.get?_cons_zero,
        Option.getD_some, hcont, Bool.false_eq_true, if_false]
      simp
    simp only [AddSemis.process_file_lines, List.length_cons, List.length_nil,
      Nat.zero_add]
    simp only [AddSemis.pass1, List.get?_cons_zero, hc, Bool.false_eq_true, if_false,
      he, hd]
    by_cases hpre : ['\x7b'] <+: pyStrip (l.drop (e + 1))
    · simp [List.isPrefixOf_iff_prefix, hpre]
    · by_cases hns : AddSemis.needs_semicolon l
      · simp [List.isPrefixOf_iff_prefix, hpre, hne, hfee, hns]
      · simp [List.isPrefixOf_iff_prefix, hpre, hne, hfee, hns]
  · intro hcase hpre
    have hfee : AddSemis.find_expression_end [l] 0 (pyStrip (l.drop (e + 1))) = 1 := by
      unfold AddSemis.find_expression_end
      simp only [List.length_cons, List.length_nil, Nat.zero_add]
      by_cases hgt : AddSemis.delimDelta (pyStrip (l.drop (e + 1))) > 0
      · simp only [AddSemis.feeGo, if_pos hgt]
        simp
      · have hlc : AddSemis.line_continues l = true := by
          rcases hcase with hgt2 | hlc
          · exact absurd hgt2 hgt
          · exact hlc
        simp only [AddSemis.feeGo, if_neg hgt, List.get?_cons_zero, Option.getD_some,
          hlc, if_true]
        simp
    simp only [AddSemis.process_file_lines, List.length_cons, List.length_nil,
      Nat.zero_add]
    simp only [AddSemis.pass1, List.get?_cons_zero, hc, Bool.false_eq_true, if_false,
      he, hd]
    have hpre2 : ¬(['\x7b'] <+: pyStrip (l.drop (e + 1))) := by
      intro hp
      rw [← List.isPrefixOf_iff_prefix] at hp
      rw [show (("\x7b").toList : List Char) = ['\x7b'] from rfl] at hpre
      rw [hpre] at hp
      exact Bool.noConfusion hp
    simp [List.isPrefixOf_iff_prefix, hpre2, hne, hfee]

/-- C6 witness: the two claim examples as one-line files, plus a one-line
file whose expression continues past the end (embedded `IndexError`). -/
theorem c6_witness :
    AddSemis.process_file_lines [("@f () -> int = 42").toList] =
      some [("@f () -> int = 42;").toList] ∧
    AddSemis.process_file_lines [("@f () -> int = \x7b 42 \x7d").toList] =
      some [("@f () -> int = \x7b 42 \x7d").toList] ∧
    AddSemis.process_file_lines [("@f () -> int = 1 +").toList] = none :=
  ⟨((c6_terminator_amended (("@f () -> int = 42").toList) 13 (by decide) (by decide)
      (by decide) (by decide)).1 (by decide) (by decide)).trans (by decide),
   ((c6_terminator_amended (("@f () -> int = \x7b 42 \x7d").toList) 13 (by decide)
      (by decide) (by decide) (by decide)).1 (by decide) (by decide)).trans (by decide),
   (c6_terminator_amended (("@f () -> int = 1 +").toList) 13 (by decide) (by decide)
      (by decide) (by decide)).2 (Or.inr (by decide)) (by decide)⟩

